import Mathlib

/-!
Verification development for the uwasi repository (a modular WASI preview1
implementation).  The TypeScript sources are shallowly embedded below:

* guest linear memory is a byte map `Nat → Nat` (`DataView` writes become
  explicit little-endian byte updates);
* JavaScript object references are modelled by a node heap (`Heap`) indexed
  by `NodeId`, so that in-place mutation of a file node is visible both
  through the file-system tree and through open-file entries, exactly as in
  the source;
* an import handler that falls off the end of its body (JavaScript
  `undefined`) or raises an exception is distinguished from one returning an
  errno by `Option` results;
* ABI decoding of call arguments (`readString`, `iovViews`) is taken as a
  parameter: handlers receive the decoded path string / iovec list, and all
  writes they perform into guest memory are modelled byte for byte.
-/

namespace UWasi

/-! ### ABI constants (src/abi.ts)

`WASI_ESUCCESS = 0`, `WASI_ERRNO_BADF = 8` and `WASI_ENOSYS = 52` appear
verbatim in the surveyed `abi.ts`. -/

def WASI_ESUCCESS : Nat := 0

def WASI_ERRNO_BADF : Nat := 8

def WASI_ENOSYS : Nat := 52

/-- Modelled from the spec: the remaining errno constants of `abi.ts` are not
part of the surveyed sources; §3 of the specification fixes
`EINVAL=28, EISDIR=31, ENOENT=44, ENOTDIR=54, EEXIST=20`. -/
def WASI_ERRNO_INVAL : Nat := 28

/-- Modelled from the spec: see `WASI_ERRNO_INVAL`. -/
def WASI_ERRNO_ISDIR : Nat := 31

/-- Modelled from the spec: see `WASI_ERRNO_INVAL`. -/
def WASI_ERRNO_NOENT : Nat := 44

/-- Modelled from the spec: see `WASI_ERRNO_INVAL`. -/
def WASI_ERRNO_NOTDIR : Nat := 54

/-- Modelled from the spec: see `WASI_ERRNO_INVAL`. -/
def WASI_ERRNO_EXIST : Nat := 20

def WASI_CLOCK_REALTIME : Nat := 0

def WASI_CLOCK_MONOTONIC : Nat := 1

/-- Modelled from the spec: filetype constants fixed by §3
(`FILETYPE_CHARACTER_DEVICE=2` also appears in the surveyed `abi.ts`). -/
def WASI_FILETYPE_CHARACTER_DEVICE : Nat := 2

/-- Modelled from the spec: see `WASI_FILETYPE_CHARACTER_DEVICE`. -/
def WASI_FILETYPE_DIRECTORY : Nat := 3

/-- Modelled from the spec: see `WASI_FILETYPE_CHARACTER_DEVICE`. -/
def WASI_FILETYPE_REGULAR_FILE : Nat := 4

/-- Modelled from the spec: open-flag constants fixed by §3
(`OFLAGS_CREAT=1, OFLAGS_DIRECTORY=2, OFLAGS_EXCL=4, OFLAGS_TRUNC=8`). -/
def WASI_OFLAGS_CREAT : Nat := 1

/-- Modelled from the spec: see `WASI_OFLAGS_CREAT`. -/
def WASI_OFLAGS_DIRECTORY : Nat := 2

/-- Modelled from the spec: see `WASI_OFLAGS_CREAT`. -/
def WASI_OFLAGS_EXCL : Nat := 4

/-- Modelled from the spec: see `WASI_OFLAGS_CREAT`. -/
def WASI_OFLAGS_TRUNC : Nat := 8

/-! ### Guest linear memory

A `DataView` over the guest memory is a byte map.  All multi-byte writes in
the source are little-endian (`setUint32(p, v, true)` and friends). -/

/-- Guest linear memory: byte value at each address. -/
def Mem : Type := Nat → Nat

/-- `view.setUint8(p, v)`. -/
def writeByte (m : Mem) (p v : Nat) : Mem :=
  fun x => if x = p then v % 256 else m x

/-- Write a list of bytes starting at `p` (e.g. `Uint8Array.set`). -/
def writeBytes (m : Mem) (p : Nat) : List Nat → Mem
  | [] => m
  | b :: bs => writeBytes (writeByte m p b) (p + 1) bs

/-- `view.setUint16(p, v, true)`: two little-endian bytes. -/
def writeU16le (m : Mem) (p v : Nat) : Mem :=
  writeByte (writeByte m p v) (p + 1) (v / 256)

/-- `view.setUint32(p, v, true)`: four little-endian bytes.  The `% 256` in
`writeByte` realises JavaScript's `ToUint32` truncation. -/
def writeU32le (m : Mem) (p v : Nat) : Mem :=
  writeByte (writeByte (writeByte (writeByte m p v)
    (p + 1) (v / 256)) (p + 2) (v / 256 ^ 2)) (p + 3) (v / 256 ^ 3)

/-- `view.setBigUint64(p, v, true)`: eight little-endian bytes. -/
def writeU64le (m : Mem) (p v : Nat) : Mem :=
  writeBytes m p ((List.range 8).map (fun i => v / 256 ^ i))

/-- Read `len` bytes starting at `p` (the content of an iovec buffer). -/
def readBytes (m : Mem) (p len : Nat) : List Nat :=
  (List.range len).map (fun i => m (p + i))

/-- `abi.writeFilestat(view, ptr, filetype)` (src/abi.ts): zeroed 56-byte
prefix of the filestat struct with `filetype` at `ptr+16`.  (`ctim` at
`ptr+56` is not written by the source.) -/
def writeFilestat (m : Mem) (ptr filetype : Nat) : Mem :=
  writeU64le (writeU64le (writeU64le (writeU32le (writeByte
    (writeU64le (writeU64le m ptr 0) (ptr + 8) 0)
    (ptr + 16) filetype) (ptr + 24) 0) (ptr + 32) 0) (ptr + 40) 0) (ptr + 48) 0

/-- `abi.writeFdstat(view, ptr, filetype, flags)` (src/abi.ts). -/
def writeFdstat (m : Mem) (ptr filetype flags : Nat) : Mem :=
  writeU64le (writeU64le (writeU16le (writeByte m ptr filetype)
    (ptr + 2) flags) (ptr + 8) 0) (ptr + 16) 0

/-! ### Association lists

JavaScript objects with numeric keys (`files`) and string keys
(`dir.entries`) are modelled as association lists; `lookupA` returns the
first binding. -/

/-- First binding for `key`, like indexing a JS object. -/
def lookupA {α : Type} [DecidableEq α] {β : Type} :
    List (α × β) → α → Option β
  | [], _ => none
  | (k, v) :: rest, key => if k = key then some v else lookupA rest key

/-- `obj[key] = v`: replace the first binding in place, else append
(JS objects keep the position of an overwritten key and append new keys). -/
def setA {α : Type} [DecidableEq α] {β : Type} :
    List (α × β) → α → β → List (α × β)
  | [], key, v => [(key, v)]
  | (k, w) :: rest, key, v =>
      if k = key then (k, v) :: rest else (k, w) :: setA rest key v

/-- `delete obj[key]`. -/
def delA {α : Type} [DecidableEq α] {β : Type}
    (l : List (α × β)) (key : α) : List (α × β) :=
  l.filter (fun kv => kv.1 ≠ key)

/-- In-place mutation of the object bound to an existing key (e.g.
`file.position = pos` on the `OpenFile` referenced by `files[fd]`): the
binding is replaced where present, and nothing is inserted. -/
def updA {α : Type} [DecidableEq α] {β : Type} :
    List (α × β) → α → β → List (α × β)
  | [], _, _ => []
  | (k0, w) :: rest, key, v =>
      if k0 = key then (k0, v) :: updA rest key v
      else (k0, w) :: updA rest key v

/-! ### Stdio proxies (src/features/fd.ts, current version)

`ReadableTextProxy` holds a carry-over buffer `pending` and pulls data from
its `consume()` callback.  The successive values that `consume()` will
produce are modelled as a list of byte chunks; once the list is exhausted
`consume()` returns the empty value (EOF), exactly like the test harness
`() => inputs.shift() || ""`. -/

/-- State of a `ReadableTextProxy`: the carry-over buffer and the chunks the
`consume()` callback will still produce. -/
structure ProxyState where
  pending : Option (List Nat)
  chunks : List (List Nat)
deriving DecidableEq, Repr

/-- `ReadableTextProxy.consumePending(pending, requestLength)`: returns the
bytes handed out and the new value of `this.pending`.  Note that when
`pending.byteLength = requestLength` the carry-over becomes an *empty array*
(`some []`), not `null`, exactly as `pending.slice(requestLength)` does. -/
def consumePending (pending : List Nat) (requestLength : Nat) :
    List Nat × Option (List Nat) :=
  if pending.length < requestLength then (pending, none)
  else (pending.take requestLength, some (pending.drop requestLength))

/-- The `while (remaining > 0)` loop of `ReadableTextProxy.readv` for one
destination buffer.  At loop entry `this.pending` is always `null` (see
`fillOne`).  Returns the bytes written into the buffer, the final
`this.pending`, the chunks not yet consumed, and whether `consume()`
returned the empty value (which makes `readv` return immediately). -/
def fillLoop : List (List Nat) → Nat → List Nat × Option (List Nat) × List (List Nat) × Bool
  | chunks, 0 => ([], none, chunks, false)
  | [], _ + 1 => ([], none, [], true)
  | c :: cs, rem + 1 =>
      if c = [] then ([], none, cs, true)
      else if rem + 1 < c.length then
        (c.take (rem + 1), some (c.drop (rem + 1)), cs, false)
      else
        let r := fillLoop cs (rem + 1 - c.length)
        (c ++ r.1, r.2.1, r.2.2.1, r.2.2.2)

/-- Processing of one iovec buffer of length `len` inside
`ReadableTextProxy.readv`: first drain the carry-over via `consumePending`,
then run the `while` loop.  (When the carry-over already fills the buffer the
loop is not entered and `this.pending` keeps the value `consumePending`
left.) -/
def fillOne (st : ProxyState) (len : Nat) :
    List Nat × Option (List Nat) × List (List Nat) × Bool :=
  let pc := match st.pending with
    | none => (([] : List Nat), (none : Option (List Nat)))
    | some p => consumePending p len
  let rem := len - pc.1.length
  if rem = 0 then (pc.1, pc.2, st.chunks, false)
  else
    let r := fillLoop st.chunks rem
    (pc.1 ++ r.1, r.2.1, r.2.2.1, r.2.2.2)

/-- `ReadableTextProxy.readv(iovs)` over the iovec *lengths*: returns the
total byte count, the bytes written into each buffer (each is a prefix of
the corresponding buffer, written starting at offset 0), and the final proxy
state.  An EOF from `consume()` returns immediately, skipping the remaining
buffers. -/
def readvGo (st : ProxyState) : List Nat → Nat × List (List Nat) × ProxyState
  | [] => (0, [], st)
  | len :: rest =>
      let f := fillOne st len
      let st' : ProxyState := ⟨f.2.1, f.2.2.1⟩
      if f.2.2.2 then (f.1.length, [f.1], st')
      else
        let r := readvGo st' rest
        (f.1.length + r.1, f.1 :: r.2.1, r.2.2)

/-- Total bytes held by the carry-over buffer (`null` holds none). -/
def pendingBytes : Option (List Nat) → List Nat
  | none => []
  | some p => p

/-- `WritableTextProxy.writev(iovs)` concatenates the buffers, hands them to
the host handler (a pure side effect, not modelled) and returns the total
byte count.  `WritableTextProxy.readv` returns 0. -/
def writevCount (iovLens : List Nat) : Nat := iovLens.sum

/-! ### Import-table composition (src/index.ts, `WASI` constructor)

A generic import handler takes the (decoded) numeric arguments and the guest
memory and returns an errno together with the possibly updated memory.  A
feature provider contributes a string-keyed table of such handlers. -/

/-- An import function, as seen by the composition step. -/
def HostFunc : Type := List Int → Mem → Nat × Mem

/-- `WASIAbi.IMPORT_FUNCTIONS` (src/abi.ts, current version). -/
def IMPORT_FUNCTIONS : List String :=
  ["args_get", "args_sizes_get",
   "clock_res_get", "clock_time_get",
   "environ_get", "environ_sizes_get",
   "fd_advise", "fd_allocate", "fd_close", "fd_datasync",
   "fd_fdstat_get", "fd_fdstat_set_flags", "fd_fdstat_set_rights",
   "fd_filestat_get", "fd_filestat_set_size", "fd_filestat_set_times",
   "fd_pread", "fd_prestat_dir_name", "fd_prestat_get", "fd_pwrite",
   "fd_read", "fd_readdir", "fd_renumber", "fd_seek", "fd_sync",
   "fd_tell", "fd_write",
   "path_create_directory", "path_filestat_get", "path_filestat_set_times",
   "path_link", "path_open", "path_readlink", "path_remove_directory",
   "path_rename", "path_symlink", "path_unlink_file",
   "poll_oneoff",
   "proc_exit", "proc_raise",
   "random_get",
   "sched_yield",
   "sock_accept", "sock_recv", "sock_send", "sock_shutdown"]

/-- The default stub installed for missing names:
`() => { return WASIAbi.WASI_ENOSYS; }`.  It ignores its arguments and does
not touch guest memory. -/
def enosysStub : HostFunc := fun _ m => (WASI_ENOSYS, m)

/-- One step of `this.wasiImport = { ...this.wasiImport, ...imports }`:
keys of `imports` win over keys of `acc`. -/
def mergeImports (acc imports : List (String × HostFunc)) :
    List (String × HostFunc) :=
  imports ++ acc

/-- One step of the ENOSYS fill loop:
`if (!(key in this.wasiImport)) this.wasiImport[key] = stub`. -/
def fillStep (t : List (String × HostFunc)) (key : String) :
    List (String × HostFunc) :=
  if (lookupA t key).isSome then t else t ++ [(key, enosysStub)]

/-- The `WASI` constructor: fold the feature providers' import tables in
order, then fill every name of `IMPORT_FUNCTIONS` still missing with the
ENOSYS stub.  (Each provider is represented by the import table it
returns.) -/
def wasiConstruct (features : List (List (String × HostFunc))) :
    List (String × HostFunc) :=
  IMPORT_FUNCTIONS.foldl fillStep (features.foldl mergeImports [])

/-! ### The driver (src/index.ts, `WASI.start`) and `useProc`
(src/features/proc.ts) -/

/-- The typed process-exit sentinel `WASIProcExit` (src/abi.ts). -/
structure WASIProcExit where
  code : Int
deriving DecidableEq, Repr

/-- How a run of the guest export `_start` ends: normal return, or an
exception, which is either the process-exit sentinel or any other raised
condition `e : ε`. -/
def RunOutcome (ε : Type) : Type := Except (WASIProcExit ⊕ ε) Unit

/-- `useProc`'s `proc_exit(code)`: `throw new WASIProcExit(code)`.  The wasm
guest cannot catch a host exception, so the throw ends the `_start` run with
the sentinel. -/
def procExitRun {ε : Type} (code : Int) : RunOutcome ε :=
  Except.error (Sum.inl ⟨code⟩)

/-- `WASI.start(instance)`: invoke `_start`; a normal return yields
`ESUCCESS`, a `WASIProcExit` is converted to its exit code, any other raised
condition propagates. -/
def wasiStart {ε : Type} (run : RunOutcome ε) : Except ε Int :=
  match run with
  | Except.ok () => Except.ok (WASI_ESUCCESS : Nat)
  | Except.error (Sum.inl e) => Except.ok e.code
  | Except.error (Sum.inr e) => Except.error e

/-! ### Clock (src/features/clock.ts, current version)

`clock_res_get` selects the resolution by clock id and then performs
`view.setUint32(resolution, resolutionValue, true)` — the source comments
"64-bit integer, but only the lower 32 bits are used", so only four bytes
are written. -/

/-- `clock_res_get(clockId, resolution)` from the current `useClock`. -/
def clock_res_get (clockId resolutionPtr : Nat) (m : Mem) : Nat × Mem :=
  if clockId = WASI_CLOCK_MONOTONIC then
    (WASI_ESUCCESS, writeU32le m resolutionPtr 5000)
  else if clockId = WASI_CLOCK_REALTIME then
    (WASI_ESUCCESS, writeU32le m resolutionPtr 1000)
  else
    (WASI_ENOSYS, m)

/-! ### `useStdio` (src/features/fd.ts, current version)

`fdTable` has exactly the three stdio proxies, so `fdTable[fd]` exists iff
`fd < 3`.  Results are `Option Nat`: `none` models a handler body that falls
off the end, i.e. the JavaScript value `undefined`. -/

/-- `useStdio`'s `fd_fdstat_get(fd, buf)`. -/
def stdio_fd_fdstat_get (fd buf : Nat) (m : Mem) : Option Nat × Mem :=
  if fd < 3 then
    (some WASI_ESUCCESS, writeFdstat m buf WASI_FILETYPE_CHARACTER_DEVICE 0)
  else (some WASI_ERRNO_BADF, m)

/-- `useStdio`'s `fd_filestat_get(fd, buf)`.  The body ends with
`abi.writeFilestat(view, buf, ...)` and has no `return` statement: on the
non-BADF path the handler yields `undefined` (modelled as `none`). -/
def stdio_fd_filestat_get (fd buf : Nat) (m : Mem) : Option Nat × Mem :=
  if fd < 3 then
    (none, writeFilestat m buf WASI_FILETYPE_CHARACTER_DEVICE)
  else (some WASI_ERRNO_BADF, m)

/-- `useStdio`'s `fd_write(fd, iovs, iovsLen, nwritten)` over the decoded
iovec list.  Slot 0 is the readable proxy, whose `writev` returns 0; slots 1
and 2 are writable proxies returning the total byte count. -/
def stdio_fd_write (fd : Nat) (iovs : List (Nat × Nat)) (nwritten : Nat)
    (m : Mem) : Option Nat × Mem :=
  if fd < 3 then
    let written := if fd = 0 then 0 else writevCount (iovs.map Prod.snd)
    (some WASI_ESUCCESS, writeU32le m nwritten written)
  else (some WASI_ERRNO_BADF, m)

/-- Write the byte lists produced by `readvGo` into guest memory at the
iovec buffer addresses (each buffer is filled starting at its offset 0). -/
def writeBufsAt (m : Mem) : List Nat → List (List Nat) → Mem
  | _, [] => m
  | [], _ => m
  | p :: ps, b :: bs => writeBufsAt (writeBytes m p b) ps bs

/-- `useStdio`'s `fd_read(fd, iovs, iovsLen, nread)` over the decoded iovec
list, with the readable proxy state threaded through.  Slots 1 and 2 are
writable proxies whose `readv` returns 0. -/
def stdio_fd_read (st : ProxyState) (fd : Nat) (iovs : List (Nat × Nat))
    (nread : Nat) (m : Mem) : Option Nat × ProxyState × Mem :=
  if fd < 3 then
    if fd = 0 then
      let r := readvGo st (iovs.map Prod.snd)
      let m1 := writeBufsAt m (iovs.map Prod.fst) r.2.1
      (some WASI_ESUCCESS, r.2.2, writeU32le m1 nread r.1)
    else (some WASI_ESUCCESS, st, writeU32le m nread 0)
  else (some WASI_ERRNO_BADF, st, m)

/-! ### Memory file system (src/features/fd.ts, current version)

JavaScript file-system nodes are heap objects mutated through shared
references: a `FileNode` reached both from the tree and from an `OpenFile`
is one object.  We model this with a node heap indexed by `NodeId`; dir
entries and open files store node ids. -/

/-- Node identifier (a JS object reference). -/
abbrev NodeId := Nat

/-- The `FSNode` union: directory, regular file, or character device
(`stdio` with its proxy slot 0/1/2, or `devnull`). -/
inductive NodeData where
  | dir (entries : List (String × NodeId))
  | file (content : List Nat)
  | charStdio (slot : Nat)
  | charDevnull
deriving DecidableEq, Repr

/-- The node heap: allocated nodes plus the next fresh id.  Nodes are never
deallocated (JS references keep them alive). -/
structure Heap where
  nodes : List (NodeId × NodeData)
  fresh : NodeId
deriving DecidableEq, Repr

/-- Dereference a node id. -/
def Heap.get (h : Heap) (id : NodeId) : Option NodeData :=
  lookupA h.nodes id

/-- Mutate the node behind `id` in place. -/
def Heap.set (h : Heap) (id : NodeId) (d : NodeData) : Heap :=
  ⟨setA h.nodes id d, h.fresh⟩

/-- Allocate a new node object. -/
def Heap.alloc (h : Heap) (d : NodeData) : Heap × NodeId :=
  (⟨h.nodes ++ [(h.fresh, d)], h.fresh + 1⟩, h.fresh)

/-- `path.split("/")` with a one-character separator, implemented at the
character level (structural recursion, so concrete paths evaluate in the
kernel). -/
def splitSlashAux : List Char → List Char → List String
  | [], acc => [String.mk acc.reverse]
  | c :: cs, acc =>
      if c = '/' then String.mk acc.reverse :: splitSlashAux cs []
      else splitSlashAux cs (c :: acc)

/-- `path.split("/")`. -/
def splitSlash (s : String) : List String := splitSlashAux s.data []

/-- `path.split("/").filter(p => p.length > 0)` followed by the
normalization loop of `normalizePath`: `.` is dropped, `..` pops a segment,
everything else is pushed. -/
def normParts (path : String) : List String :=
  ((splitSlash path).filter (fun p => p ≠ "")).foldl
    (fun acc p =>
      if p = "." then acc
      else if p = ".." then acc.dropLast
      else acc ++ [p]) []

/-- `normalizePath(path)` (src/features/fd.ts): empty input and an empty
segment list denote `/`.  Re-splitting the result gives back `normParts`
(the parts are non-empty and slash-free), which is how the file-system
methods consume normalized paths. -/
def normalizePath (path : String) : String :=
  if path = "" then "/"
  else
    let np := normParts path
    if np = [] then "/" else "/" ++ String.intercalate "/" np

/-- The walk of `MemoryFileSystem.lookup`: from `cur`, follow each segment
through directory entries; a missing entry or a non-directory on the way
yields `null`. -/
def lookupGo (h : Heap) (cur : NodeId) : List String → Option NodeId
  | [] => some cur
  | p :: rest =>
      match h.get cur with
      | some (NodeData.dir es) =>
          match lookupA es p with
          | some next => lookupGo h next rest
          | none => none
      | _ => none

/-- The state of a `MemoryFileSystem` instance: its heap of nodes, the id of
`this.root`, and `this.preopenPaths`. -/
structure FSState where
  heap : Heap
  rootId : NodeId
  preopenPaths : List String
deriving DecidableEq, Repr

/-- `MemoryFileSystem.lookup(path)`: normalize, then walk from the root
(`"/"` resolves to the root itself since `normParts` is empty). -/
def FSState.lookupPath (fs : FSState) (path : String) : Option NodeId :=
  lookupGo fs.heap fs.rootId (normParts path)

/-- The walk of `MemoryFileSystem.resolve(dir, relativePath)` over the
already-normalized parts.  The source keeps explicit branches for `.`
(skip) and `..` (jump to the root), although `normParts` never produces
them. -/
def resolveGo (h : Heap) (root : NodeId) (cur : NodeId) :
    List String → Option NodeId
  | [] => some cur
  | p :: rest =>
      if p = "." then resolveGo h root cur rest
      else if p = ".." then resolveGo h root root rest
      else
        match h.get cur with
        | some (NodeData.dir es) =>
            match lookupA es p with
            | some next => resolveGo h root next rest
            | none => none
        | _ => none

/-- `MemoryFileSystem.resolve(dir, relativePath)`. -/
def FSState.resolve (fs : FSState) (dir : NodeId) (relativePath : String) :
    Option NodeId :=
  resolveGo fs.heap fs.rootId dir (normParts relativePath)

/-- The shared walk of `ensureDir` / `createFileIn`: follow the segments
from `cur`, creating a fresh empty directory for each missing entry; an
existing non-directory entry throws `"<part>" is not a directory` (modelled
by returning no node id; the heap mutations made before the throw are
kept). -/
def ensureWalk (h : Heap) (cur : NodeId) :
    List String → Heap × Option NodeId
  | [] => (h, some cur)
  | p :: rest =>
      match h.get cur with
      | some (NodeData.dir es) =>
          match lookupA es p with
          | some next =>
              match h.get next with
              | some (NodeData.dir _) => ensureWalk h next rest
              | _ => (h, none)
          | none =>
              let a := h.alloc (NodeData.dir [])
              let h2 := a.1.set cur (NodeData.dir (setA es p a.2))
              ensureWalk h2 a.2 rest
      | _ => (h, none)

/-- `MemoryFileSystem.ensureDir(path)`: walk the normalized parts from the
root. -/
def FSState.ensureDir (fs : FSState) (path : String) :
    FSState × Option NodeId :=
  let r := ensureWalk fs.heap fs.rootId (normParts path)
  (⟨r.1, fs.rootId, fs.preopenPaths⟩, r.2)

/-- Split a list into its leading part and last element
(`parts.pop()` of the source). -/
def splitLast {α : Type} : List α → Option (List α × α)
  | [] => none
  | [x] => some ([], x)
  | x :: y :: rest =>
      match splitLast (y :: rest) with
      | some (init, last) => some (x :: init, last)
      | none => none

/-- `MemoryFileSystem.setNode(path, node)`: an empty part list replaces the
root (which must be a directory, else the source throws); otherwise
`ensureDir` the parent path and set the final entry.  The node to store is
allocated fresh (the caller passes a newly constructed object). -/
def FSState.setNode (fs : FSState) (path : String) (d : NodeData) :
    Option FSState :=
  match splitLast (normParts path) with
  | none =>
      match d with
      | NodeData.dir _ => some ⟨fs.heap.set fs.rootId d, fs.rootId, fs.preopenPaths⟩
      | _ => none
  | some (init, last) =>
      let e := ensureWalk fs.heap fs.rootId init
      match e.2 with
      | none => none
      | some dirId =>
          let a := e.1.alloc d
          match a.1.get dirId with
          | some (NodeData.dir es) =>
              some ⟨a.1.set dirId (NodeData.dir (setA es last a.2)), fs.rootId,
                fs.preopenPaths⟩
          | _ => none

/-- `MemoryFileSystem.createFile(path, content)` = `setNode` with a fresh
regular file node. -/
def FSState.createFile (fs : FSState) (path : String) (content : List Nat) :
    Option FSState :=
  fs.setNode path (NodeData.file content)

/-- `MemoryFileSystem.createFileIn(dir, relativePath)`: walk the parent
segments from `dir` (creating missing directories), then store a fresh empty
file under the final name.  An empty normalized path throws.  As in
`ensureWalk`, heap mutations made before a throw are kept. -/
def FSState.createFileIn (fs : FSState) (dir : NodeId) (relativePath : String) :
    FSState × Option NodeId :=
  match splitLast (normParts relativePath) with
  | none => (fs, none)
  | some (init, last) =>
      let e := ensureWalk fs.heap dir init
      match e.2 with
      | none => (⟨e.1, fs.rootId, fs.preopenPaths⟩, none)
      | some parentId =>
          let a := e.1.alloc (NodeData.file [])
          match a.1.get parentId with
          | some (NodeData.dir es) =>
              (⟨a.1.set parentId (NodeData.dir (setA es last a.2)), fs.rootId,
                fs.preopenPaths⟩, some a.2)
          | _ => (⟨e.1, fs.rootId, fs.preopenPaths⟩, none)

/-- Outcome of `removeEntry`'s parent-traversal loop: the final parent node,
a silent return (an intermediate node exists but is not a directory), or a
thrown `TypeError` (an intermediate entry is missing, so the loop
dereferences `undefined`). -/
inductive RemWalk where
  | parent (id : NodeId)
  | noop
  | crash
deriving DecidableEq, Repr

/-- The traversing loop of `MemoryFileSystem.removeEntry` over the
intermediate segments (`parts[0 .. n-2]`).  The `parentDir.type` check
happens before each segment is consumed; a missing entry leaves
`parentDir = undefined`, whose next dereference throws. -/
def remWalk (h : Heap) (cur : NodeId) : List String → RemWalk
  | [] => RemWalk.parent cur
  | p :: rest =>
      match h.get cur with
      | some (NodeData.dir es) =>
          match lookupA es p with
          | some next => remWalk h next rest
          | none => RemWalk.crash
      | _ => RemWalk.noop

/-- `MemoryFileSystem.removeEntry(path)`: `none` models a thrown
`TypeError`.  With an empty part list the source deletes
`root.entries[undefined]`, i.e. the literal key "undefined".  The final
`delete parentDir.entries[fileName]` throws when the final parent is not a
directory (its `entries` is `undefined`). -/
def FSState.removeEntry (fs : FSState) (path : String) : Option FSState :=
  match splitLast (normParts path) with
  | none =>
      match fs.heap.get fs.rootId with
      | some (NodeData.dir es) =>
          some ⟨fs.heap.set fs.rootId (NodeData.dir (delA es "undefined")),
            fs.rootId, fs.preopenPaths⟩
      | _ => none
  | some (init, last) =>
      match remWalk fs.heap fs.rootId init with
      | RemWalk.noop => some fs
      | RemWalk.crash => none
      | RemWalk.parent pid =>
          match fs.heap.get pid with
          | some (NodeData.dir es) =>
              some ⟨fs.heap.set pid (NodeData.dir (delA es last)), fs.rootId,
                fs.preopenPaths⟩
          | _ => none

/-- One iteration of the constructor's preopen loop: ensure the key as a
directory (a throw aborts the constructor) and record it as a preopen. -/
def mkFSStep (acc : Option FSState) (p : String) : Option FSState :=
  match acc with
  | none => none
  | some fs =>
      let e := fs.ensureDir p
      match e.2 with
      | none => none
      | some _ => some ⟨e.1.heap, e.1.rootId, e.1.preopenPaths ++ [p]⟩

/-- The `MemoryFileSystem` constructor over the keys of the `preopens`
option (in `Object.keys` order): start from an empty root directory, ensure
`/dev`, set the `/dev/null` device, then ensure each preopen key as a
directory, recording it; with no preopens, `/` is the sole preopen.
`none` models a constructor throw (`ensureDir` hitting a non-directory). -/
def mkFS (preopens : Option (List String)) : Option FSState :=
  let fs0 : FSState := ⟨⟨[(0, NodeData.dir [])], 1⟩, 0, []⟩
  let e1 := fs0.ensureDir "/dev"
  match e1.2 with
  | none => none
  | some _ =>
      match e1.1.setNode "/dev/null" NodeData.charDevnull with
      | none => none
      | some fs2 =>
          match preopens with
          | none => some ⟨fs2.heap, fs2.rootId, ["/"]⟩
          | some keys => keys.foldl mkFSStep (some fs2)

/-! ### Open-file table and the `useMemoryFS` handlers -/

/-- An `OpenFile` entry of the open-file table. -/
structure OpenFile where
  node : NodeId
  position : Nat
  path : String
  isPreopen : Bool
  preopenPath : Option String
  fd : Nat
deriving DecidableEq, Repr

/-- The state owned by one `useMemoryFS` provider instance: the file system,
the open-file table `files` (numeric-keyed JS object, kept in ascending
key order), the `nextFd` counter, and the stdin proxy state. -/
structure WasiState where
  fs : FSState
  files : List (Nat × OpenFile)
  nextFd : Nat
  stdin : ProxyState
deriving DecidableEq, Repr

/-- `getFileFromPath(guestPath)`: first entry (in ascending fd order) whose
recorded path equals the guest path. -/
def getFileFromPath (files : List (Nat × OpenFile)) (guestPath : String) :
    Option OpenFile :=
  match files.find? (fun kv => kv.2.path == guestPath) with
  | some kv => some kv.2
  | none => none

/-- `getFileFromFD(fd)`. -/
def getFileFromFD (s : WasiState) (fd : Nat) : Option OpenFile :=
  lookupA s.files fd

/-- `base.endsWith("/")`: the final character is a slash. -/
def endsWithSlash (s : String) : Bool :=
  match s.data.getLast? with
  | some c => c = '/'
  | none => false

/-- `(dirEntry.path.endsWith("/") ? dirEntry.path : dirEntry.path + "/")
+ path`: the guest-path concatenation used by all `path_*` handlers. -/
def joinGuest (base rel : String) : String :=
  if endsWithSlash base then base ++ rel else base ++ "/" ++ rel

/-- The iovec copy loop of `fd_read` on a regular file: stop when
`totalRead >= available` or a computed chunk size is zero, otherwise copy
`min(buf.byteLength, available - totalRead)` bytes of `data` (starting at
`position + totalRead`) into the buffer. -/
def readFileLoop (data : List Nat) (pos avail : Nat) (m : Mem) :
    List (Nat × Nat) → Nat → Nat × Mem
  | [], total => (total, m)
  | (ptr, len) :: rest, total =>
      if avail ≤ total then (total, m)
      else
        let toRead := min len (avail - total)
        if toRead = 0 then (total, m)
        else
          readFileLoop data pos avail
            (writeBytes m ptr ((data.drop (pos + total)).take toRead))
            rest (total + toRead)

/-- `fd_read(fd, iovs, iovsLen, nread)` over the decoded iovec
(address, length) pairs. -/
def mfs_fd_read (s : WasiState) (m : Mem) (fd : Nat)
    (iovs : List (Nat × Nat)) (nread : Nat) : Option Nat × WasiState × Mem :=
  match getFileFromFD s fd with
  | none => (some WASI_ERRNO_BADF, s, m)
  | some f =>
      match s.fs.heap.get f.node with
      | some (NodeData.charStdio slot) =>
          if slot = 0 then
            let r := readvGo s.stdin (iovs.map Prod.snd)
            (some WASI_ESUCCESS, { s with stdin := r.2.2 },
              writeU32le (writeBufsAt m (iovs.map Prod.fst) r.2.1) nread r.1)
          else (some WASI_ESUCCESS, s, writeU32le m nread 0)
      | some (NodeData.dir _) => (some WASI_ERRNO_ISDIR, s, m)
      | some NodeData.charDevnull => (some WASI_ESUCCESS, s, writeU32le m nread 0)
      | some (NodeData.file data) =>
          if data.length ≤ f.position then
            (some WASI_ESUCCESS, s, writeU32le m nread 0)
          else
            let r := readFileLoop data f.position (data.length - f.position) m iovs 0
            (some WASI_ESUCCESS,
              { s with files := updA s.files fd { f with position := f.position + r.1 } },
              writeU32le r.2 nread r.1)
      | none => (none, s, m)

/-- The iovec copy loop of `fd_write` on a regular file: write each buffer's
bytes into the content at the running position. -/
def writeFileLoop (m : Mem) : List Nat → Nat → List (Nat × Nat) → List Nat × Nat
  | c, pos, [] => (c, pos)
  | c, pos, (ptr, len) :: rest =>
      writeFileLoop m (c.take pos ++ readBytes m ptr len ++ c.drop (pos + len))
        (pos + len) rest

/-- `fd_write(fd, iovs, iovsLen, nwritten)`.  On a regular file the content
is grown with a zero-filled tail when `position + total` exceeds its length,
then the buffers are copied in at the running position (mutating the shared
node). -/
def mfs_fd_write (s : WasiState) (m : Mem) (fd : Nat)
    (iovs : List (Nat × Nat)) (nwritten : Nat) : Option Nat × WasiState × Mem :=
  match getFileFromFD s fd with
  | none => (some WASI_ERRNO_BADF, s, m)
  | some f =>
      match s.fs.heap.get f.node with
      | some (NodeData.charStdio slot) =>
          let written := if slot = 0 then 0 else writevCount (iovs.map Prod.snd)
          (some WASI_ESUCCESS, s, writeU32le m nwritten written)
      | some (NodeData.dir _) => (some WASI_ERRNO_ISDIR, s, m)
      | some NodeData.charDevnull =>
          (some WASI_ESUCCESS, s, writeU32le m nwritten (iovs.map Prod.snd).sum)
      | some (NodeData.file content) =>
          let total := (iovs.map Prod.snd).sum
          let required := f.position + total
          let base :=
            if content.length < required then
              content ++ List.replicate (required - content.length) 0
            else content
          let r := writeFileLoop m base f.position iovs
          (some WASI_ESUCCESS,
            ⟨⟨s.fs.heap.set f.node (NodeData.file r.1), s.fs.rootId, s.fs.preopenPaths⟩,
              updA s.files fd { f with position := r.2 }, s.nextFd, s.stdin⟩,
            writeU32le m nwritten total)
      | none => (none, s, m)

/-- `fd_close(fd)`: for a stdio node the proxy's close hook runs and the
table entry persists; otherwise the entry is removed.  Unknown fds give
`EBADF`. -/
def mfs_fd_close (s : WasiState) (m : Mem) (fd : Nat) :
    Option Nat × WasiState × Mem :=
  match getFileFromFD s fd with
  | none => (some WASI_ERRNO_BADF, s, m)
  | some f =>
      match s.fs.heap.get f.node with
      | some (NodeData.charStdio _) => (some WASI_ESUCCESS, s, m)
      | some _ => (some WASI_ESUCCESS, { s with files := delA s.files fd }, m)
      | none => (none, s, m)

/-- `fd_seek(fd, offset, whence, newOffset)`: stdio fds are rejected, the fd
must be an open regular file, `whence` selects the base, a negative result
clamps to 0, and the new position is written as a *u32*. -/
def mfs_fd_seek (s : WasiState) (m : Mem) (fd : Nat) (offset : Int)
    (whence : Nat) (newOffset : Nat) : Option Nat × WasiState × Mem :=
  if fd < 3 then (some WASI_ERRNO_BADF, s, m)
  else
    match getFileFromFD s fd with
    | none => (some WASI_ERRNO_BADF, s, m)
    | some f =>
        match s.fs.heap.get f.node with
        | some (NodeData.file content) =>
            let posOpt : Option Int :=
              if whence = 0 then some offset
              else if whence = 1 then some ((f.position : Int) + offset)
              else if whence = 2 then some ((content.length : Int) + offset)
              else none
            match posOpt with
            | none => (some WASI_ERRNO_INVAL, s, m)
            | some p =>
                let pos : Nat := if p < 0 then 0 else p.toNat
                (some WASI_ESUCCESS,
                  { s with files := updA s.files fd { f with position := pos } },
                  writeU32le m newOffset pos)
        | _ => (some WASI_ERRNO_BADF, s, m)

/-- `fd_tell(fd, offset_ptr)`: stdio fds rejected; writes the position as a
u64. -/
def mfs_fd_tell (s : WasiState) (m : Mem) (fd : Nat) (offsetPtr : Nat) :
    Option Nat × WasiState × Mem :=
  if fd < 3 then (some WASI_ERRNO_BADF, s, m)
  else
    match getFileFromFD s fd with
    | none => (some WASI_ERRNO_BADF, s, m)
    | some f => (some WASI_ESUCCESS, s, writeU64le m offsetPtr f.position)

/-- `fd_fdstat_get(fd, buf)`. -/
def mfs_fd_fdstat_get (s : WasiState) (m : Mem) (fd buf : Nat) :
    Option Nat × WasiState × Mem :=
  match getFileFromFD s fd with
  | none => (some WASI_ERRNO_BADF, s, m)
  | some f =>
      match s.fs.heap.get f.node with
      | some (NodeData.charStdio _) =>
          (some WASI_ESUCCESS, s, writeFdstat m buf WASI_FILETYPE_CHARACTER_DEVICE 0)
      | some NodeData.charDevnull =>
          (some WASI_ESUCCESS, s, writeFdstat m buf WASI_FILETYPE_CHARACTER_DEVICE 0)
      | some (NodeData.dir _) =>
          (some WASI_ESUCCESS, s, writeFdstat m buf WASI_FILETYPE_DIRECTORY 0)
      | some (NodeData.file _) =>
          (some WASI_ESUCCESS, s, writeFdstat m buf WASI_FILETYPE_REGULAR_FILE 0)
      | none => (none, s, m)

/-- `fd_filestat_get(fd, buf)`: zeroed filestat with the node's filetype,
then the regular-file size at `buf + 32`. -/
def mfs_fd_filestat_get (s : WasiState) (m : Mem) (fd buf : Nat) :
    Option Nat × WasiState × Mem :=
  match getFileFromFD s fd with
  | none => (some WASI_ERRNO_BADF, s, m)
  | some f =>
      match s.fs.heap.get f.node with
      | some (NodeData.charStdio _) =>
          (some WASI_ESUCCESS, s,
            writeU64le (writeFilestat m buf WASI_FILETYPE_CHARACTER_DEVICE) (buf + 32) 0)
      | some NodeData.charDevnull =>
          (some WASI_ESUCCESS, s,
            writeU64le (writeFilestat m buf WASI_FILETYPE_CHARACTER_DEVICE) (buf + 32) 0)
      | some (NodeData.dir _) =>
          (some WASI_ESUCCESS, s,
            writeU64le (writeFilestat m buf WASI_FILETYPE_DIRECTORY) (buf + 32) 0)
      | some (NodeData.file content) =>
          (some WASI_ESUCCESS, s,
            writeU64le (writeFilestat m buf WASI_FILETYPE_REGULAR_FILE) (buf + 32)
              content.length)
      | none => (none, s, m)

/-- `fd_prestat_get(fd, buf)`: preopen descriptors only; writes `tag = 0` at
`buf` and the preopen path length at `buf + 4`. -/
def mfs_fd_prestat_get (s : WasiState) (m : Mem) (fd buf : Nat) :
    Option Nat × WasiState × Mem :=
  if fd < 3 then (some WASI_ERRNO_BADF, s, m)
  else
    match getFileFromFD s fd with
    | none => (some WASI_ERRNO_BADF, s, m)
    | some f =>
        if f.isPreopen then
          let pathStr := f.preopenPath.getD ""
          (some WASI_ESUCCESS, s,
            writeU32le (writeByte m buf 0) (buf + 4) pathStr.length)
        else (some WASI_ERRNO_BADF, s, m)

/-- `fd_prestat_dir_name(fd, pathPtr, pathLen)`: writes the preopen path's
character codes byte by byte; a length mismatch gives `EINVAL`. -/
def mfs_fd_prestat_dir_name (s : WasiState) (m : Mem) (fd pathPtr pathLen : Nat) :
    Option Nat × WasiState × Mem :=
  if fd < 3 then (some WASI_ERRNO_BADF, s, m)
  else
    match getFileFromFD s fd with
    | none => (some WASI_ERRNO_BADF, s, m)
    | some f =>
        if f.isPreopen then
          let pathStr := f.preopenPath.getD ""
          if pathStr.length = pathLen then
            (some WASI_ESUCCESS, s,
              writeBytes m pathPtr (pathStr.data.map Char.toNat))
          else (some WASI_ERRNO_INVAL, s, m)
        else (some WASI_ERRNO_BADF, s, m)

/-- Allocate the new open-file entry of a successful `path_open`
(`files[nextFd] = {...}; opened_fd := nextFd; nextFd++`). -/
def openAlloc (s : WasiState) (m : Mem) (target : NodeId) (guestPath : String)
    (openedFd : Nat) : Option Nat × WasiState × Mem :=
  (some WASI_ESUCCESS,
    ⟨s.fs, setA s.files s.nextFd ⟨target, 0, guestPath, false, none, s.nextFd⟩,
      s.nextFd + 1, s.stdin⟩,
    writeU32le m openedFd s.nextFd)

/-- `path_open(dirfd, dirflags, path, oflags, ..., opened_fd)` over the
decoded path string.  Stdio fds and non-directory fds give `ENOTDIR`; an
already-open guest path is deduplicated to its existing fd; otherwise the
target is resolved and the `EXCL` / `TRUNC` / `CREAT` logic runs before a
fresh descriptor is allocated.  A `createFileIn` throw (existing
non-directory intermediate) propagates (`none`), keeping the directories it
created first. -/
def mfs_path_open (s : WasiState) (m : Mem) (dirfd : Nat) (path : String)
    (oflags : Nat) (openedFd : Nat) : Option Nat × WasiState × Mem :=
  if dirfd < 3 then (some WASI_ERRNO_NOTDIR, s, m)
  else
    match getFileFromFD s dirfd with
    | none => (some WASI_ERRNO_NOTDIR, s, m)
    | some de =>
        match s.fs.heap.get de.node with
        | some (NodeData.dir _) =>
            let guestPath := normalizePath (joinGuest de.path path)
            match getFileFromPath s.files guestPath with
            | some existing =>
                (some WASI_ESUCCESS, s, writeU32le m openedFd existing.fd)
            | none =>
                match s.fs.resolve de.node path with
                | some target =>
                    if oflags &&& WASI_OFLAGS_EXCL ≠ 0 then
                      (some WASI_ERRNO_EXIST, s, m)
                    else if oflags &&& WASI_OFLAGS_TRUNC ≠ 0 then
                      match s.fs.heap.get target with
                      | some (NodeData.file _) =>
                          openAlloc
                            ⟨⟨s.fs.heap.set target (NodeData.file []), s.fs.rootId,
                              s.fs.preopenPaths⟩, s.files, s.nextFd, s.stdin⟩
                            m target guestPath openedFd
                      | some _ => (some WASI_ERRNO_INVAL, s, m)
                      | none => (none, s, m)
                    else openAlloc s m target guestPath openedFd
                | none =>
                    if oflags &&& WASI_OFLAGS_CREAT = 0 then
                      (some WASI_ERRNO_NOENT, s, m)
                    else
                      let r := s.fs.createFileIn de.node path
                      match r.2 with
                      | none => (none, { s with fs := r.1 }, m)
                      | some nid =>
                          openAlloc { s with fs := r.1 } m nid guestPath openedFd
        | _ => (some WASI_ERRNO_NOTDIR, s, m)

/-- `path_create_directory(fd, path)`: `ensureDir` on the joined guest path;
an `ensureDir` throw propagates (keeping the directories created first). -/
def mfs_path_create_directory (s : WasiState) (m : Mem) (fd : Nat)
    (path : String) : Option Nat × WasiState × Mem :=
  match getFileFromFD s fd with
  | none => (some WASI_ERRNO_NOTDIR, s, m)
  | some de =>
      match s.fs.heap.get de.node with
      | some (NodeData.dir _) =>
          let e := s.fs.ensureDir (joinGuest de.path path)
          match e.2 with
          | none => (none, { s with fs := e.1 }, m)
          | some _ => (some WASI_ESUCCESS, { s with fs := e.1 }, m)
      | _ => (some WASI_ERRNO_NOTDIR, s, m)

/-- `path_unlink_file(fd, path)`: `removeEntry` on the joined guest path and
`ESUCCESS`; a `removeEntry` throw propagates. -/
def mfs_path_unlink_file (s : WasiState) (m : Mem) (fd : Nat) (path : String) :
    Option Nat × WasiState × Mem :=
  match getFileFromFD s fd with
  | none => (some WASI_ERRNO_NOTDIR, s, m)
  | some de =>
      match s.fs.heap.get de.node with
      | some (NodeData.dir _) =>
          match s.fs.removeEntry (joinGuest de.path path) with
          | none => (none, s, m)
          | some fs2 => (some WASI_ESUCCESS, { s with fs := fs2 }, m)
      | _ => (some WASI_ERRNO_NOTDIR, s, m)

/-- `path_remove_directory(fd, path)`: the source's body is identical to
`path_unlink_file`. -/
def mfs_path_remove_directory (s : WasiState) (m : Mem) (fd : Nat)
    (path : String) : Option Nat × WasiState × Mem :=
  match getFileFromFD s fd with
  | none => (some WASI_ERRNO_NOTDIR, s, m)
  | some de =>
      match s.fs.heap.get de.node with
      | some (NodeData.dir _) =>
          match s.fs.removeEntry (joinGuest de.path path) with
          | none => (none, s, m)
          | some fs2 => (some WASI_ESUCCESS, { s with fs := fs2 }, m)
      | _ => (some WASI_ERRNO_NOTDIR, s, m)

/-- `path_filestat_get(fd, flags, path, buf)`. -/
def mfs_path_filestat_get (s : WasiState) (m : Mem) (fd : Nat) (path : String)
    (buf : Nat) : Option Nat × WasiState × Mem :=
  match getFileFromFD s fd with
  | none => (some WASI_ERRNO_BADF, s, m)
  | some de =>
      match s.fs.heap.get de.node with
      | some (NodeData.dir _) =>
          match s.fs.lookupPath (joinGuest de.path path) with
          | none => (some WASI_ERRNO_NOENT, s, m)
          | some nid =>
              match s.fs.heap.get nid with
              | some (NodeData.charStdio _) => (some WASI_ERRNO_INVAL, s, m)
              | some (NodeData.dir _) =>
                  (some WASI_ESUCCESS, s,
                    writeU64le (writeFilestat m buf WASI_FILETYPE_DIRECTORY)
                      (buf + 32) 0)
              | some NodeData.charDevnull =>
                  (some WASI_ESUCCESS, s,
                    writeU64le (writeFilestat m buf WASI_FILETYPE_CHARACTER_DEVICE)
                      (buf + 32) 0)
              | some (NodeData.file content) =>
                  (some WASI_ESUCCESS, s,
                    writeU64le (writeFilestat m buf WASI_FILETYPE_REGULAR_FILE)
                      (buf + 32) content.length)
              | none => (none, s, m)
      | _ => (some WASI_ERRNO_NOTDIR, s, m)

/-! ### Provider initialisation (`useMemoryFS` body) -/

/-- The preopen loop: each preopen path that looks up to a directory gets
the next consecutive descriptor, starting at `nextFd = 3`. -/
def assignPreopens (fs : FSState) : List String → Nat → List (Nat × OpenFile) × Nat
  | [], nextFd => ([], nextFd)
  | p :: rest, nextFd =>
      match fs.lookupPath p with
      | some id =>
          match fs.heap.get id with
          | some (NodeData.dir _) =>
              let r := assignPreopens fs rest (nextFd + 1)
              ((nextFd, ⟨id, 0, p, true, some p, nextFd⟩) :: r.1, r.2)
          | _ => assignPreopens fs rest nextFd
      | none => assignPreopens fs rest nextFd

/-- `useMemoryFS` provider setup: bind the three stdio proxies as character
device entries 0–2 (their nodes live outside the tree), then register the
preopens.  `stdinChunks` are the values the stdin `consume()` callback will
produce. -/
def initState (fs : FSState) (stdinChunks : List (List Nat)) : WasiState :=
  let a0 := fs.heap.alloc (NodeData.charStdio 0)
  let a1 := a0.1.alloc (NodeData.charStdio 1)
  let a2 := a1.1.alloc (NodeData.charStdio 2)
  let fs2 : FSState := ⟨a2.1, fs.rootId, fs.preopenPaths⟩
  let pre := assignPreopens fs2 fs2.preopenPaths 3
  ⟨fs2,
    [(0, ⟨a0.2, 0, "/dev/fd/0", false, none, 0⟩),
     (1, ⟨a1.2, 0, "/dev/fd/1", false, none, 1⟩),
     (2, ⟨a2.2, 0, "/dev/fd/2", false, none, 2⟩)] ++ pre.1,
    pre.2, ⟨none, stdinChunks⟩⟩

/-! ### Operation steps (for the descriptor-numbering invariant) -/

/-- One guest call into the `useMemoryFS` import table, with its decoded
arguments. -/
inductive MOp where
  | opRead (fd : Nat) (iovs : List (Nat × Nat)) (nread : Nat)
  | opWrite (fd : Nat) (iovs : List (Nat × Nat)) (nwritten : Nat)
  | opClose (fd : Nat)
  | opSeek (fd : Nat) (offset : Int) (whence : Nat) (newOffset : Nat)
  | opTell (fd : Nat) (offsetPtr : Nat)
  | opFdstatGet (fd : Nat) (buf : Nat)
  | opFilestatGet (fd : Nat) (buf : Nat)
  | opPrestatGet (fd : Nat) (buf : Nat)
  | opPrestatDirName (fd : Nat) (pathPtr : Nat) (pathLen : Nat)
  | opPathOpen (dirfd : Nat) (path : String) (oflags : Nat) (openedFd : Nat)
  | opPathCreateDirectory (fd : Nat) (path : String)
  | opPathUnlinkFile (fd : Nat) (path : String)
  | opPathRemoveDirectory (fd : Nat) (path : String)
  | opPathFilestatGet (fd : Nat) (path : String) (buf : Nat)
deriving DecidableEq, Repr

/-- Dispatch one guest call to its handler. -/
def applyOp (s : WasiState) (m : Mem) : MOp → Option Nat × WasiState × Mem
  | MOp.opRead fd iovs nread => mfs_fd_read s m fd iovs nread
  | MOp.opWrite fd iovs nwritten => mfs_fd_write s m fd iovs nwritten
  | MOp.opClose fd => mfs_fd_close s m fd
  | MOp.opSeek fd offset whence newOffset => mfs_fd_seek s m fd offset whence newOffset
  | MOp.opTell fd offsetPtr => mfs_fd_tell s m fd offsetPtr
  | MOp.opFdstatGet fd buf => mfs_fd_fdstat_get s m fd buf
  | MOp.opFilestatGet fd buf => mfs_fd_filestat_get s m fd buf
  | MOp.opPrestatGet fd buf => mfs_fd_prestat_get s m fd buf
  | MOp.opPrestatDirName fd pathPtr pathLen => mfs_fd_prestat_dir_name s m fd pathPtr pathLen
  | MOp.opPathOpen dirfd path oflags openedFd => mfs_path_open s m dirfd path oflags openedFd
  | MOp.opPathCreateDirectory fd path => mfs_path_create_directory s m fd path
  | MOp.opPathUnlinkFile fd path => mfs_path_unlink_file s m fd path
  | MOp.opPathRemoveDirectory fd path => mfs_path_remove_directory s m fd path
  | MOp.opPathFilestatGet fd path buf => mfs_path_filestat_get s m fd path buf

/-- Run a sequence of guest calls; a thrown host exception (result `none`)
propagates out of `_start`, so no further calls run, but mutations made
before the throw persist. -/
def runOps (s : WasiState) (m : Mem) : List MOp → WasiState × Mem
  | [] => (s, m)
  | op :: rest =>
      let r := applyOp s m op
      match r.1 with
      | some _ => runOps r.2.1 r.2.2 rest
      | none => (r.2.1, r.2.2)

/-! ### Invariants used by the verification -/

/-- Every allocated node id is below the next fresh id, so allocation never
shadows an existing node. -/
def HeapWf (h : Heap) : Prop := ∀ p ∈ h.nodes, p.1 < h.fresh

/-- Heap extension that preserves directories: every directory node keeps
its id, stays a directory, and keeps all its entries (more may be added).
`ensureDir` only ever grows the tree this way. -/
def DirLe (h h' : Heap) : Prop :=
  ∀ id es, h.get id = some (NodeData.dir es) →
    ∃ es', h'.get id = some (NodeData.dir es') ∧
      ∀ k v, lookupA es k = some v → lookupA es' k = some v

/-- The descriptor-table invariant: every open descriptor is below
`nextFd`. -/
def Inv (s : WasiState) : Prop := ∀ p ∈ s.files, p.1 < s.nextFd

/-- A well-formed `MemoryFileSystem`: well-formed heap, the root is a
directory, and every registered preopen path resolves to a directory. -/
def GoodFS (fs : FSState) : Prop :=
  HeapWf fs.heap ∧
  (∃ es, fs.heap.get fs.rootId = some (NodeData.dir es)) ∧
  ∀ p ∈ fs.preopenPaths, ∃ id es, fs.lookupPath p = some id ∧
    fs.heap.get id = some (NodeData.dir es)

/-! ### Concrete example states used by witnesses and counterexamples -/

/-- The file system built by `new MemoryFileSystem(undefined)`. -/
def exFS : FSState := (mkFS none).getD ⟨⟨[], 0⟩, 0, []⟩

/-- A `useMemoryFS` provider state over `exFS` with no stdin input. -/
def exS0 : WasiState := initState exFS []

/-- All-zero guest memory. -/
def exMem : Mem := fun _ => 0

/-- `path_open(3, "f", OFLAGS_CREAT)` on the fresh state: creates `/f`. -/
def exOpen1 : Option Nat × WasiState × Mem := mfs_path_open exS0 exMem 3 "f" 1 100

/-- The state with `/f` open at descriptor 4. -/
def exS1 : WasiState := exOpen1.2.1

/-- A file system holding a regular file at `/a`. -/
def exFSa : FSState := (exFS.createFile "/a" [65]).getD ⟨⟨[], 0⟩, 0, []⟩

/-- A `useMemoryFS` provider state over `exFSa`. -/
def exSa : WasiState := initState exFSa []

/-! ### Generic lemmas about the association-list and memory primitives -/

theorem lookupA_append {α : Type} [DecidableEq α] {β : Type}
    (l1 l2 : List (α × β)) (k : α) :
    lookupA (l1 ++ l2) k =
      (match lookupA l1 k with
       | some v => some v
       | none => lookupA l2 k) := by
  induction l1 with
  | nil => simp [lookupA]
  | cons p rest ih =>
      by_cases h : p.1 = k <;> simp [lookupA, h, ih]

theorem lookupA_setA_self {α : Type} [DecidableEq α] {β : Type}
    (l : List (α × β)) (k : α) (v : β) :
    lookupA (setA l k v) k = some v := by
  induction l with
  | nil => simp [setA, lookupA]
  | cons p rest ih =>
      by_cases h : p.1 = k <;> simp [setA, lookupA, h, ih]

theorem lookupA_setA_ne {α : Type} [DecidableEq α] {β : Type}
    (l : List (α × β)) (k k' : α) (v : β) (h : k ≠ k') :
    lookupA (setA l k v) k' = lookupA l k' := by
  induction l with
  | nil => simp [setA, lookupA, h]
  | cons p rest ih =>
      obtain ⟨a, b⟩ := p
      by_cases hp : a = k
      · subst hp; simp [setA, lookupA, h]
      · by_cases hp' : a = k' <;>
          simp [setA, lookupA, hp, hp', ih, Ne.symm h]

theorem setA_of_lookupA_self {α : Type} [DecidableEq α] {β : Type}
    (l : List (α × β)) (k : α) (v : β) (h : lookupA l k = some v) :
    setA l k v = l := by
  induction l with
  | nil => simp [lookupA] at h
  | cons p rest ih =>
      obtain ⟨a, b⟩ := p
      by_cases hp : a = k
      · simp [lookupA, hp] at h
        simp [setA, hp, ← h]
      · simp [lookupA, hp] at h
        simp [setA, hp, ih h]

theorem setA_of_lookupA_none {α : Type} [DecidableEq α] {β : Type}
    (l : List (α × β)) (k : α) (v : β) (h : lookupA l k = none) :
    setA l k v = l ++ [(k, v)] := by
  induction l with
  | nil => simp [setA]
  | cons p rest ih =>
      by_cases hp : p.1 = k
      · simp [lookupA, hp] at h
      · simp [lookupA, hp] at h
        simp [setA, hp, ih h]

theorem mem_setA {α : Type} [DecidableEq α] {β : Type}
    (l : List (α × β)) (k : α) (v : β) (p : α × β) (h : p ∈ setA l k v) :
    p = (k, v) ∨ p ∈ l := by
  induction l with
  | nil => simp [setA] at h; simp [h]
  | cons q rest ih =>
      by_cases hq : q.1 = k
      · simp [setA, hq] at h
        rcases h with h | h
        · left; rw [h, ← hq]
        · right; simp [h]
      · simp [setA, hq] at h
        rcases h with h | h
        · right; simp [h]
        · rcases ih h with h' | h'
          · left; exact h'
          · right; simp [h']

theorem mem_delA {α : Type} [DecidableEq α] {β : Type}
    (l : List (α × β)) (k : α) (p : α × β) (h : p ∈ delA l k) : p ∈ l := by
  simpa [delA] using List.mem_of_mem_filter h

theorem delA_of_lookupA_none {α : Type} [DecidableEq α] {β : Type}
    (l : List (α × β)) (k : α) (h : lookupA l k = none) : delA l k = l := by
  induction l with
  | nil => simp [delA]
  | cons p rest ih =>
      obtain ⟨a, b⟩ := p
      by_cases hp : a = k
      · simp [lookupA, hp] at h
      · simp [lookupA, hp] at h
        have ih' := ih h
        simp only [delA] at ih' ⊢
        rw [List.filter_cons_of_pos (by simpa using hp), ih']

theorem lookupA_updA_self {α : Type} [DecidableEq α] {β : Type}
    (l : List (α × β)) (k : α) (v w : β) (h : lookupA l k = some w) :
    lookupA (updA l k v) k = some v := by
  induction l with
  | nil => simp [lookupA] at h
  | cons p rest ih =>
      obtain ⟨a, b⟩ := p
      by_cases hp : a = k
      · subst hp
        simp [updA, lookupA]
      · simp only [lookupA, if_neg hp] at h
        simp [updA, lookupA, hp, ih h]

theorem mem_updA {α : Type} [DecidableEq α] {β : Type}
    (l : List (α × β)) (k : α) (v : β) (p : α × β) (hp : p ∈ updA l k v) :
    ∃ q ∈ l, p.1 = q.1 := by
  induction l with
  | nil => simp [updA] at hp
  | cons q rest ih =>
      obtain ⟨a, b⟩ := q
      by_cases h : a = k
      · rw [updA, if_pos h] at hp
        rcases List.mem_cons.mp hp with hp' | hp'
        · exact ⟨(a, b), List.mem_cons_self _ _, by simp [hp']⟩
        · obtain ⟨q', hq', he⟩ := ih hp'
          exact ⟨q', List.mem_cons_of_mem _ hq', he⟩
      · rw [updA, if_neg h] at hp
        rcases List.mem_cons.mp hp with hp' | hp'
        · exact ⟨(a, b), List.mem_cons_self _ _, by simp [hp']⟩
        · obtain ⟨q', hq', he⟩ := ih hp'
          exact ⟨q', List.mem_cons_of_mem _ hq', he⟩

theorem lookupA_mem {α : Type} [DecidableEq α] {β : Type}
    (l : List (α × β)) (k : α) (v : β) (h : lookupA l k = some v) :
    (k, v) ∈ l := by
  induction l with
  | nil => simp [lookupA] at h
  | cons p rest ih =>
      obtain ⟨a, b⟩ := p
      by_cases hp : a = k
      · simp [lookupA, hp] at h
        subst hp
        subst h
        exact List.mem_cons_self _ _
      · simp [lookupA, hp] at h
        exact List.mem_cons_of_mem _ (ih h)

theorem lookupA_eq_none_of_not_mem {α : Type} [DecidableEq α] {β : Type}
    (l : List (α × β)) (k : α) (h : ∀ v, (k, v) ∉ l) : lookupA l k = none := by
  induction l with
  | nil => rfl
  | cons p rest ih =>
      by_cases hp : p.1 = k
      · exact absurd (by simp [← hp]) (h p.2)
      · simp only [lookupA, hp, if_neg]
        exact ih (fun v hv => h v (List.mem_cons_of_mem _ hv))

theorem writeByte_other (m : Mem) (p v x : Nat) (h : x ≠ p) :
    writeByte m p v x = m x := by
  simp [writeByte, h]

theorem writeU32le_other (m : Mem) (p v x : Nat)
    (h : x ≠ p ∧ x ≠ p + 1 ∧ x ≠ p + 2 ∧ x ≠ p + 3) :
    writeU32le m p v x = m x := by
  simp [writeU32le, writeByte, h.1, h.2.1, h.2.2.1, h.2.2.2]

/-! ### Claim theorems -/

/-- C2: `start()` invokes the guest export `_start` (the `RunOutcome` is the
way that run ends); a normal return yields `ESUCCESS` (0); a raise of the
process-exit sentinel — which is exactly what `proc_exit(code)` raises —
makes `start()` return that code as its integer result; any other raised
condition propagates out of `start()` unchanged. -/
theorem c2_start_exit_passthrough {ε : Type} (run : RunOutcome ε) :
    (run = Except.ok () → wasiStart run = Except.ok ((WASI_ESUCCESS : Nat) : Int)) ∧
    (∀ c : Int, run = procExitRun c → wasiStart run = Except.ok c) ∧
    (∀ e : ε, run = Except.error (Sum.inr e) → wasiStart run = Except.error e) := by
  refine ⟨fun h => ?_, fun c h => ?_, fun e h => ?_⟩ <;> subst h <;> rfl

/-- C2 witness: a guest raising `WASIProcExit 42` (as `proc_exit(42)` does)
makes `start()` return 42. -/
theorem c2_start_exit_passthrough_witness :
    wasiStart (@procExitRun Unit 42) = Except.ok 42 :=
  (c2_start_exit_passthrough (@procExitRun Unit 42)).2.1 42 rfl

/-- C5 counterexample: the claim says `clock_res_get` writes all 8 bytes of
a 64-bit little-endian value (upper 4 bytes zero) for `CLOCK_REALTIME`; on a
memory holding 7 everywhere, the call at `out_ptr = 8` succeeds but the byte
at `out_ptr + 4 = 12` still reads 7, not 0 — only four bytes were written
(`setUint32`). -/
theorem c5_clock_res_counterexample :
    (clock_res_get WASI_CLOCK_REALTIME 8 (fun _ => 7)).1 = WASI_ESUCCESS ∧
    (clock_res_get WASI_CLOCK_REALTIME 8 (fun _ => 7)).2 12 = 7 ∧
    ¬ (clock_res_get WASI_CLOCK_REALTIME 8 (fun _ => 7)).2 12 = 0 := by
  refine ⟨rfl, rfl, by decide⟩

/-- C5 (amended): `clock_res_get` writes the resolution as a *32-bit*
little-endian value at `out_ptr` — 1000 for `CLOCK_REALTIME`, 5000 for
`CLOCK_MONOTONIC` — returning `ESUCCESS` and leaving every byte outside
`out_ptr .. out_ptr+3` (in particular the upper four bytes of the 64-bit
field) unchanged; every other clock id returns `ENOSYS` and writes
nothing. -/
theorem c5_clock_res_get_spec (clockId ptr : Nat) (m : Mem) :
    (clockId = WASI_CLOCK_REALTIME →
      clock_res_get clockId ptr m = (WASI_ESUCCESS, writeU32le m ptr 1000)) ∧
    (clockId = WASI_CLOCK_MONOTONIC →
      clock_res_get clockId ptr m = (WASI_ESUCCESS, writeU32le m ptr 5000)) ∧
    (clockId ≠ WASI_CLOCK_REALTIME → clockId ≠ WASI_CLOCK_MONOTONIC →
      clock_res_get clockId ptr m = (WASI_ENOSYS, m)) ∧
    (∀ x, x ≠ ptr → x ≠ ptr + 1 → x ≠ ptr + 2 → x ≠ ptr + 3 →
      (clock_res_get clockId ptr m).2 x = m x) := by
  refine ⟨fun h => ?_, fun h => ?_, fun h1 h2 => ?_, fun x hx0 hx1 hx2 hx3 => ?_⟩
  · subst h; rfl
  · subst h; rfl
  · simp [clock_res_get, h1, h2]
  · by_cases h1 : clockId = WASI_CLOCK_MONOTONIC
    · simp [clock_res_get, h1, writeU32le_other m ptr 5000 x ⟨hx0, hx1, hx2, hx3⟩]
    · by_cases h2 : clockId = WASI_CLOCK_REALTIME
      · simp [clock_res_get, h1, h2, WASI_CLOCK_REALTIME, WASI_CLOCK_MONOTONIC,
          writeU32le_other m ptr 1000 x ⟨hx0, hx1, hx2, hx3⟩]
      · simp [clock_res_get, h1, h2]

/-- C5 witness: a concrete unknown clock id (7) returns `ENOSYS` without
writing. -/
theorem c5_clock_res_get_spec_witness :
    clock_res_get 7 8 (fun _ => 7) = (WASI_ENOSYS, fun _ => 7) :=
  (c5_clock_res_get_spec 7 8 (fun _ => 7)).2.2.1 (by decide) (by decide)

/-- C6: the claim that every provider handler's normal return yields a
defined errno fails on `useStdio`'s `fd_filestat_get`, whose body has no
`return` statement on the success path: for each stdio fd it writes the
filestat and yields `undefined` (`none`), not `ESUCCESS`.  The sibling
handlers named by the claim do return `ESUCCESS`, confirming the missing
return is a slip. -/
theorem c6_stdio_filestat_missing_return :
    (stdio_fd_filestat_get 1 64 (fun _ => 0)).1 = none ∧
    (∀ e : Nat, (stdio_fd_filestat_get 1 64 (fun _ => 0)).1 ≠ some e) ∧
    (stdio_fd_fdstat_get 1 64 (fun _ => 0)).1 = some WASI_ESUCCESS ∧
    (stdio_fd_write 1 [(0, 2)] 64 (fun _ => 0)).1 = some WASI_ESUCCESS ∧
    (stdio_fd_read ⟨none, []⟩ 0 [(0, 2)] 64 (fun _ => 0)).1 = some WASI_ESUCCESS := by
  refine ⟨rfl, fun e => by simp [stdio_fd_filestat_get], rfl, rfl, rfl⟩

/-! ### C1: the ENOSYS fill of the `WASI` constructor -/

theorem lookupA_foldl_merge_none (features : List (List (String × HostFunc)))
    (init : List (String × HostFunc)) (name : String)
    (h : ∀ p ∈ features, lookupA p name = none) :
    lookupA (features.foldl mergeImports init) name = lookupA init name := by
  induction features generalizing init with
  | nil => rfl
  | cons p rest ih =>
      simp only [List.foldl_cons]
      rw [ih _ (fun q hq => h q (List.mem_cons_of_mem _ hq))]
      unfold mergeImports
      rw [lookupA_append, h p (List.mem_cons_self _ _)]

theorem lookupA_fillStep_of_some (t : List (String × HostFunc))
    (key name : String) (f : HostFunc) (h : lookupA t name = some f) :
    lookupA (fillStep t key) name = some f := by
  unfold fillStep
  split
  · exact h
  · rw [lookupA_append, h]

theorem lookupA_foldl_fill_of_some (keys : List String)
    (t : List (String × HostFunc)) (name : String) (f : HostFunc)
    (h : lookupA t name = some f) :
    lookupA (keys.foldl fillStep t) name = some f := by
  induction keys generalizing t with
  | nil => exact h
  | cons k rest ih => exact ih _ (lookupA_fillStep_of_some t k name f h)

theorem lookupA_fillStep_none_ne (t : List (String × HostFunc))
    (key name : String) (hne : key ≠ name) (h : lookupA t name = none) :
    lookupA (fillStep t key) name = none := by
  unfold fillStep
  split
  · exact h
  · rw [lookupA_append, h]
    simp [lookupA, hne]

theorem lookupA_foldl_fill_mem (keys : List String)
    (t : List (String × HostFunc)) (name : String) (hmem : name ∈ keys)
    (h : lookupA t name = none) :
    lookupA (keys.foldl fillStep t) name = some enosysStub := by
  induction keys generalizing t with
  | nil => cases hmem
  | cons k rest ih =>
      by_cases hk : k = name
      · subst hk
        refine lookupA_foldl_fill_of_some rest _ _ _ ?_
        unfold fillStep
        rw [h]
        simp only [Option.isSome_none, Bool.false_eq_true, if_false]
        rw [lookupA_append, h]
        simp [lookupA]
      · rcases List.mem_cons.mp hmem with heq | hrest
        · exact absurd heq.symm hk
        · exact ih _ hrest (lookupA_fillStep_none_ne t k name hk h)

/-- C1: for every list of feature providers (each represented by the import
table it contributes) and every name of the fixed `IMPORT_FUNCTIONS` set,
the table built by the `WASI` constructor holds a callable function for that
name; and when no selected provider supplied the name, that function is the
default stub, which returns `ENOSYS` (52) and leaves guest memory
unchanged. -/
theorem c1_enosys_fill (features : List (List (String × HostFunc)))
    (name : String) (hmem : name ∈ IMPORT_FUNCTIONS) :
    (∃ f, lookupA (wasiConstruct features) name = some f) ∧
    ((∀ p ∈ features, lookupA p name = none) →
      ∃ f, lookupA (wasiConstruct features) name = some f ∧
        ∀ args m, f args m = (WASI_ENOSYS, m)) := by
  constructor
  · cases hbase : lookupA (features.foldl mergeImports []) name with
    | some f => exact ⟨f, lookupA_foldl_fill_of_some _ _ _ _ hbase⟩
    | none => exact ⟨enosysStub, lookupA_foldl_fill_mem _ _ _ hmem hbase⟩
  · intro hnone
    have hbase : lookupA (features.foldl mergeImports []) name = none := by
      rw [lookupA_foldl_merge_none _ _ _ hnone]
      rfl
    exact ⟨enosysStub, lookupA_foldl_fill_mem _ _ _ hmem hbase,
      fun args m => rfl⟩

/-- C1 witness: with the empty feature list, `random_get` is present and is
the ENOSYS stub (scenario "ENOSYS reach" of the spec). -/
theorem c1_enosys_fill_witness :
    (∃ f, lookupA (wasiConstruct []) "random_get" = some f) ∧
    ((∀ p ∈ ([] : List (List (String × HostFunc))),
        lookupA p "random_get" = none) →
      ∃ f, lookupA (wasiConstruct []) "random_get" = some f ∧
        ∀ args m, f args m = (WASI_ENOSYS, m)) :=
  c1_enosys_fill [] "random_get" (by simp [IMPORT_FUNCTIONS])

/-! ### C4: `path_open` deduplication of already-open paths -/

/-- C4: when the resolved absolute guest path of a `path_open` call equals
the recorded path of an entry already in the open-file table, the existing
entry's fd is written to `opened_fd` as u32 little-endian and `ESUCCESS` is
returned; the returned state is `s` itself, so no descriptor is allocated
and neither the file-system tree nor the open-file table changes. -/
theorem c4_path_open_dedup (s : WasiState) (m : Mem) (dirfd : Nat)
    (path : String) (oflags openedFd : Nat) (de ef : OpenFile)
    (h3 : 3 ≤ dirfd)
    (hde : getFileFromFD s dirfd = some de)
    (hdir : ∃ es, s.fs.heap.get de.node = some (NodeData.dir es))
    (hex : getFileFromPath s.files (normalizePath (joinGuest de.path path)) =
      some ef) :
    mfs_path_open s m dirfd path oflags openedFd =
      (some WASI_ESUCCESS, s, writeU32le m openedFd ef.fd) := by
  obtain ⟨es, hes⟩ := hdir
  simp [mfs_path_open, Nat.not_lt.mpr h3, hde, hes, hex]

/-- C4 witness: reopening `/f` (already open at fd 4 in `exS1`) writes 4 to
`opened_fd` and leaves the state untouched. -/
theorem c4_path_open_dedup_witness :
    mfs_path_open exS1 exMem 3 "f" 1 200 =
      (some WASI_ESUCCESS, exS1,
        writeU32le exMem 200 (OpenFile.fd ⟨6, 0, "/f", false, none, 4⟩)) :=
  c4_path_open_dedup exS1 exMem 3 "f" 1 200 ⟨0, 0, "/", true, some "/", 3⟩
    ⟨6, 0, "/f", false, none, 4⟩ (by decide) (by decide)
    ⟨[("dev", 1), ("f", 6)], by decide⟩ (by decide)

/-! ### C7: `fd_seek` clamping and `fd_tell` -/

theorem clampNat_eq_max (z : Int) :
    (((if z < 0 then 0 else z.toNat) : Nat) : Int) = max 0 z := by
  by_cases h : z < 0
  · simp [h, max_eq_left (le_of_lt h)]
  · push_neg at h
    simp [not_lt.mpr h, Int.toNat_of_nonneg h, max_eq_right h]

/-- C7: on the memory-FS, `fd_seek` rejects fds 0–2 with `EBADF`; a whence
value other than 0 (SET), 1 (CUR), 2 (END) returns `EINVAL` with the whole
state unchanged; otherwise the new position is the selected base plus
offset, clamped below at 0 (`max 0 ·`), and is also written to `new_offset`;
in particular, after `fd_seek(fd, -100, SET)` on an open regular file, a
subsequent `fd_tell(fd)` writes position 0 (as u64) and succeeds. -/
theorem c7_fd_seek_clamp (s : WasiState) (m : Mem) (fd : Nat) (offset : Int)
    (whence newOffset : Nat) (f : OpenFile) (content : List Nat)
    (hf : getFileFromFD s fd = some f)
    (hnode : s.fs.heap.get f.node = some (NodeData.file content)) :
    (fd < 3 →
      mfs_fd_seek s m fd offset whence newOffset = (some WASI_ERRNO_BADF, s, m)) ∧
    (3 ≤ fd → 3 ≤ whence →
      mfs_fd_seek s m fd offset whence newOffset = (some WASI_ERRNO_INVAL, s, m)) ∧
    (3 ≤ fd → whence < 3 →
      ∃ p : Nat,
        (p : Int) = max 0 (if whence = 0 then offset
          else if whence = 1 then (f.position : Int) + offset
          else (content.length : Int) + offset) ∧
        mfs_fd_seek s m fd offset whence newOffset =
          (some WASI_ESUCCESS,
            { s with files := updA s.files fd { f with position := p } },
            writeU32le m newOffset p)) ∧
    (3 ≤ fd → ∀ m2 tellPtr,
      mfs_fd_tell (mfs_fd_seek s m fd (-100) 0 newOffset).2.1 m2 fd tellPtr =
        (some WASI_ESUCCESS, (mfs_fd_seek s m fd (-100) 0 newOffset).2.1,
          writeU64le m2 tellPtr 0)) := by
  refine ⟨fun hlt => ?_, fun h3 hw => ?_, fun h3 hw => ?_, fun h3 m2 tellPtr => ?_⟩
  · simp [mfs_fd_seek, hlt]
  · have h0 : whence ≠ 0 := by omega
    have h1 : whence ≠ 1 := by omega
    have h2 : whence ≠ 2 := by omega
    simp [mfs_fd_seek, Nat.not_lt.mpr h3, hf, hnode, h0, h1, h2]
  · have hcase : whence = 0 ∨ whence = 1 ∨ whence = 2 := by omega
    rcases hcase with hw0 | hw1 | hw2
    · subst hw0
      refine ⟨if offset < 0 then 0 else offset.toNat, clampNat_eq_max offset, ?_⟩
      simp [mfs_fd_seek, Nat.not_lt.mpr h3, hf, hnode]
    · subst hw1
      refine ⟨if (f.position : Int) + offset < 0 then 0
          else ((f.position : Int) + offset).toNat,
        clampNat_eq_max _, ?_⟩
      simp [mfs_fd_seek, Nat.not_lt.mpr h3, hf, hnode]
    · subst hw2
      refine ⟨if (content.length : Int) + offset < 0 then 0
          else ((content.length : Int) + offset).toNat,
        clampNat_eq_max _, ?_⟩
      simp [mfs_fd_seek, Nat.not_lt.mpr h3, hf, hnode]
  · have hseek : mfs_fd_seek s m fd (-100) 0 newOffset =
        (some WASI_ESUCCESS,
          { s with files := updA s.files fd { f with position := 0 } },
          writeU32le m newOffset 0) := by
      simp [mfs_fd_seek, Nat.not_lt.mpr h3, hf, hnode]
    rw [hseek]
    simp only
    have hf' : getFileFromFD
        { s with files := updA s.files fd { f with position := 0 } } fd =
        some { f with position := 0 } := by
      unfold getFileFromFD at hf ⊢
      exact lookupA_updA_self s.files fd _ _ hf
    simp [mfs_fd_tell, Nat.not_lt.mpr h3, hf']

/-- C7 witness: on `exS1` (regular file `/f` open at fd 4, empty content),
`fd_seek(4, -100, SET)` then `fd_tell(4)` reports position 0. -/
theorem c7_fd_seek_clamp_witness :
    mfs_fd_tell (mfs_fd_seek exS1 exMem 4 (-100) 0 300).2.1 exMem 4 400 =
      (some WASI_ESUCCESS, (mfs_fd_seek exS1 exMem 4 (-100) 0 300).2.1,
        writeU64le exMem 400 0) :=
  (c7_fd_seek_clamp exS1 exMem 4 (-100) 0 300 ⟨6, 0, "/f", false, none, 4⟩ []
    (by decide) (by decide)).2.2.2 (by decide) exMem 400

/-! ### C10: `path_unlink_file` / `path_remove_directory` -/

theorem unlink_never_noent (s : WasiState) (m : Mem) (fd : Nat) (path : String) :
    (mfs_path_unlink_file s m fd path).1 ≠ some WASI_ERRNO_NOENT := by
  unfold mfs_path_unlink_file
  cases h1 : getFileFromFD s fd with
  | none => simp [WASI_ERRNO_NOTDIR, WASI_ERRNO_NOENT]
  | some de =>
      cases h2 : s.fs.heap.get de.node with
      | none => simp [h2, WASI_ERRNO_NOTDIR, WASI_ERRNO_NOENT]
      | some nd =>
          cases nd with
          | dir es =>
              cases h3 : s.fs.removeEntry (joinGuest de.path path) with
              | none => simp [h2, h3]
              | some fs2 => simp [h2, h3, WASI_ESUCCESS, WASI_ERRNO_NOENT]
          | file c => simp [h2, WASI_ERRNO_NOTDIR, WASI_ERRNO_NOENT]
          | charStdio k => simp [h2, WASI_ERRNO_NOTDIR, WASI_ERRNO_NOENT]
          | charDevnull => simp [h2, WASI_ERRNO_NOTDIR, WASI_ERRNO_NOENT]

theorem remove_directory_never_noent (s : WasiState) (m : Mem) (fd : Nat)
    (path : String) :
    (mfs_path_remove_directory s m fd path).1 ≠ some WASI_ERRNO_NOENT := by
  unfold mfs_path_remove_directory
  cases h1 : getFileFromFD s fd with
  | none => simp [WASI_ERRNO_NOTDIR, WASI_ERRNO_NOENT]
  | some de =>
      cases h2 : s.fs.heap.get de.node with
      | none => simp [h2, WASI_ERRNO_NOTDIR, WASI_ERRNO_NOENT]
      | some nd =>
          cases nd with
          | dir es =>
              cases h3 : s.fs.removeEntry (joinGuest de.path path) with
              | none => simp [h2, h3]
              | some fs2 => simp [h2, h3, WASI_ESUCCESS, WASI_ERRNO_NOENT]
          | file c => simp [h2, WASI_ERRNO_NOTDIR, WASI_ERRNO_NOENT]
          | charStdio k => simp [h2, WASI_ERRNO_NOTDIR, WASI_ERRNO_NOENT]
          | charDevnull => simp [h2, WASI_ERRNO_NOTDIR, WASI_ERRNO_NOENT]

/-- When the final parent of the normalized path exists as a directory that
has no entry under the final name, `removeEntry` is an identity. -/
theorem removeEntry_missing_leaf (fs : FSState) (path : String)
    (init : List String) (last : String)
    (hsplit : splitLast (normParts path) = some (init, last))
    (pid : NodeId) (hwalk : remWalk fs.heap fs.rootId init = RemWalk.parent pid)
    (pes : List (String × NodeId))
    (hpd : fs.heap.get pid = some (NodeData.dir pes))
    (hmiss : lookupA pes last = none) :
    fs.removeEntry path = some fs := by
  unfold FSState.removeEntry
  simp only [hsplit, hwalk, hpd, delA_of_lookupA_none pes last hmiss]
  have hset : fs.heap.set pid (NodeData.dir pes) = fs.heap := by
    unfold Heap.set
    rw [setA_of_lookupA_self fs.heap.nodes pid (NodeData.dir pes) hpd]
  rw [hset]

/-- C10 (amended): for an fd that is not an open directory descriptor, both
`path_unlink_file` and `path_remove_directory` return `ENOTDIR`; neither
ever returns `ENOENT`.  For an open directory fd, with the resolved path
split into intermediate segments `init` and final name `last`: when every
intermediate resolves and the traversal ends at a parent directory with no
entry named `last`, the call is a silent no-op returning `ESUCCESS` with
the state unchanged; when the traversal's guard — which checks each node
before consuming a segment, so only nodes strictly above the leaf's parent
— meets an existing non-directory node (outcome `RemWalk.noop`), the call
likewise silently returns `ESUCCESS` with the state unchanged; but when an
intermediate entry is missing (outcome `RemWalk.crash`), or when the
traversal ends at a leaf parent that is not a directory (the one position
the guard never checks, so the final `delete` dereferences `undefined`),
the call raises a host `TypeError` (result `none`) instead of returning an
errno. -/
theorem c10_unlink_remove_spec (s : WasiState) (m : Mem) (fd : Nat)
    (path : String) :
    ((∀ de, getFileFromFD s fd = some de →
        ∀ es, s.fs.heap.get de.node ≠ some (NodeData.dir es)) →
      mfs_path_unlink_file s m fd path = (some WASI_ERRNO_NOTDIR, s, m) ∧
      mfs_path_remove_directory s m fd path = (some WASI_ERRNO_NOTDIR, s, m)) ∧
    (mfs_path_unlink_file s m fd path).1 ≠ some WASI_ERRNO_NOENT ∧
    (mfs_path_remove_directory s m fd path).1 ≠ some WASI_ERRNO_NOENT ∧
    (∀ de, getFileFromFD s fd = some de →
      ∀ des, s.fs.heap.get de.node = some (NodeData.dir des) →
      ∀ init last, splitLast (normParts (joinGuest de.path path)) = some (init, last) →
      ∀ pid, remWalk s.fs.heap s.fs.rootId init = RemWalk.parent pid →
      ∀ pes, s.fs.heap.get pid = some (NodeData.dir pes) →
      lookupA pes last = none →
      mfs_path_unlink_file s m fd path = (some WASI_ESUCCESS, s, m) ∧
      mfs_path_remove_directory s m fd path = (some WASI_ESUCCESS, s, m)) ∧
    (∀ de, getFileFromFD s fd = some de →
      ∀ des, s.fs.heap.get de.node = some (NodeData.dir des) →
      ∀ init last, splitLast (normParts (joinGuest de.path path)) = some (init, last) →
      remWalk s.fs.heap s.fs.rootId init = RemWalk.noop →
      mfs_path_unlink_file s m fd path = (some WASI_ESUCCESS, s, m) ∧
      mfs_path_remove_directory s m fd path = (some WASI_ESUCCESS, s, m)) ∧
    (∀ de, getFileFromFD s fd = some de →
      ∀ des, s.fs.heap.get de.node = some (NodeData.dir des) →
      ∀ init last, splitLast (normParts (joinGuest de.path path)) = some (init, last) →
      remWalk s.fs.heap s.fs.rootId init = RemWalk.crash →
      mfs_path_unlink_file s m fd path = (none, s, m) ∧
      mfs_path_remove_directory s m fd path = (none, s, m)) ∧
    (∀ de, getFileFromFD s fd = some de →
      ∀ des, s.fs.heap.get de.node = some (NodeData.dir des) →
      ∀ init last, splitLast (normParts (joinGuest de.path path)) = some (init, last) →
      ∀ pid, remWalk s.fs.heap s.fs.rootId init = RemWalk.parent pid →
      (∀ pes, s.fs.heap.get pid ≠ some (NodeData.dir pes)) →
      mfs_path_unlink_file s m fd path = (none, s, m) ∧
      mfs_path_remove_directory s m fd path = (none, s, m)) := by
  refine ⟨fun hnd => ?_, unlink_never_noent s m fd path,
    remove_directory_never_noent s m fd path,
    fun de hde des hdes init last hsplit pid hwalk pes hpd hmiss => ?_,
    fun de hde des hdes init last hsplit hwalk => ?_,
    fun de hde des hdes init last hsplit hwalk => ?_,
    fun de hde des hdes init last hsplit pid hwalk hnd => ?_⟩
  · cases h1 : getFileFromFD s fd with
    | none => constructor <;> simp [mfs_path_unlink_file, mfs_path_remove_directory, h1]
    | some de =>
        cases h2 : s.fs.heap.get de.node with
        | none =>
            constructor <;>
              simp [mfs_path_unlink_file, mfs_path_remove_directory, h1, h2]
        | some nd =>
            cases nd with
            | dir es => exact absurd h2 (hnd de h1 es)
            | file c =>
                constructor <;>
                  simp [mfs_path_unlink_file, mfs_path_remove_directory, h1, h2]
            | charStdio k =>
                constructor <;>
                  simp [mfs_path_unlink_file, mfs_path_remove_directory, h1, h2]
            | charDevnull =>
                constructor <;>
                  simp [mfs_path_unlink_file, mfs_path_remove_directory, h1, h2]
  · have hrem := removeEntry_missing_leaf s.fs (joinGuest de.path path) init last
      hsplit pid hwalk pes hpd hmiss
    constructor <;>
      simp [mfs_path_unlink_file, mfs_path_remove_directory, hde, hdes, hrem]
  · have hrem : s.fs.removeEntry (joinGuest de.path path) = some s.fs := by
      unfold FSState.removeEntry
      simp only [hsplit, hwalk]
    constructor <;>
      simp [mfs_path_unlink_file, mfs_path_remove_directory, hde, hdes, hrem]
  · have hrem : s.fs.removeEntry (joinGuest de.path path) = none := by
      unfold FSState.removeEntry
      simp only [hsplit, hwalk]
    constructor <;>
      simp [mfs_path_unlink_file, mfs_path_remove_directory, hde, hdes, hrem]
  · have hrem : s.fs.removeEntry (joinGuest de.path path) = none := by
      unfold FSState.removeEntry
      cases hg : s.fs.heap.get pid with
      | none => simp only [hsplit, hwalk, hg]
      | some nd =>
          cases nd with
          | dir es => exact absurd hg (hnd es)
          | file c => simp only [hsplit, hwalk, hg]
          | charStdio k => simp only [hsplit, hwalk, hg]
          | charDevnull => simp only [hsplit, hwalk, hg]
    constructor <;>
      simp [mfs_path_unlink_file, mfs_path_remove_directory, hde, hdes, hrem]

/-- C10 counterexample: on the fresh state, fd 3 is an open directory
(the sole preopen `/`) yet `path_unlink_file(3, "a/b")` — whose resolved
path `/a/b` has no entry — does not return `ESUCCESS`: the intermediate
component `a` is missing and the handler raises (result `none`).  Likewise
for `path_remove_directory`. -/
theorem c10_unlink_remove_counterexample :
    (getFileFromFD exS0 3).isSome = true ∧
    (mfs_path_unlink_file exS0 exMem 3 "a/b").1 = none ∧
    (mfs_path_remove_directory exS0 exMem 3 "a/b").1 = none ∧
    ¬ (mfs_path_unlink_file exS0 exMem 3 "a/b").1 = some WASI_ESUCCESS ∧
    ¬ (mfs_path_remove_directory exS0 exMem 3 "a/b").1 = some WASI_ESUCCESS := by
  refine ⟨rfl, rfl, rfl, by decide, by decide⟩

/-- C10 witness: removing the absent leaf `nope` from the preopen root is a
silent no-op returning `ESUCCESS` with the state unchanged; with a regular
file at `/a`, unlinking `a/b/c` hits the traversal guard at `/a` (strictly
above the leaf's parent) and is likewise a silent `ESUCCESS` no-op, while
unlinking `a/b` — whose leaf parent `/a` exists but is not a directory —
raises (result `none`). -/
theorem c10_unlink_remove_spec_witness :
    (mfs_path_unlink_file exS0 exMem 3 "nope" = (some WASI_ESUCCESS, exS0, exMem) ∧
     mfs_path_remove_directory exS0 exMem 3 "nope" =
       (some WASI_ESUCCESS, exS0, exMem)) ∧
    (mfs_path_unlink_file exSa exMem 3 "a/b/c" = (some WASI_ESUCCESS, exSa, exMem) ∧
     mfs_path_remove_directory exSa exMem 3 "a/b/c" =
       (some WASI_ESUCCESS, exSa, exMem)) ∧
    (mfs_path_unlink_file exSa exMem 3 "a/b" = (none, exSa, exMem) ∧
     mfs_path_remove_directory exSa exMem 3 "a/b" = (none, exSa, exMem)) :=
  ⟨(c10_unlink_remove_spec exS0 exMem 3 "nope").2.2.2.1
      ⟨0, 0, "/", true, some "/", 3⟩ (by decide) [("dev", 1)] (by decide)
      [] "nope" (by decide) 0 (by decide) [("dev", 1)] (by decide) (by decide),
   (c10_unlink_remove_spec exSa exMem 3 "a/b/c").2.2.2.2.1
      ⟨0, 0, "/", true, some "/", 3⟩ (by decide) [("dev", 1), ("a", 3)]
      (by decide) ["a", "b"] "c" (by decide) (by decide),
   (c10_unlink_remove_spec exSa exMem 3 "a/b").2.2.2.2.2.2
      ⟨0, 0, "/", true, some "/", 3⟩ (by decide) [("dev", 1), ("a", 3)]
      (by decide) ["a"] "b" (by decide) 3 (by decide)
      (by
        intro pes h
        rw [show exSa.fs.heap.get 3 = some (NodeData.file [65]) from rfl] at h
        simp at h)⟩

/-! ### Heap well-formedness (all allocated ids are below `fresh`) -/

theorem get_lt_fresh (h : Heap) (id : NodeId) (d : NodeData)
    (hwf : HeapWf h) (hget : h.get id = some d) : id < h.fresh :=
  hwf _ (lookupA_mem _ _ _ hget)

theorem get_set_self (h : Heap) (id : NodeId) (d : NodeData) :
    (h.set id d).get id = some d :=
  lookupA_setA_self _ _ _

theorem get_set_ne (h : Heap) (id id' : NodeId) (d : NodeData) (hne : id ≠ id') :
    (h.set id d).get id' = h.get id' :=
  lookupA_setA_ne _ _ _ _ hne

theorem get_alloc_of_some (h : Heap) (id : NodeId) (d d' : NodeData)
    (hget : h.get id = some d) : (h.alloc d').1.get id = some d := by
  unfold Heap.alloc Heap.get at *
  rw [lookupA_append, hget]

theorem alloc_get_fresh (h : Heap) (d : NodeData) (hwf : HeapWf h) :
    (h.alloc d).1.get (h.alloc d).2 = some d := by
  unfold Heap.alloc Heap.get
  rw [lookupA_append,
    lookupA_eq_none_of_not_mem h.nodes h.fresh
      (fun v hv => absurd (hwf _ hv) (lt_irrefl _)),
    lookupA]
  simp

theorem alloc_wf (h : Heap) (d : NodeData) (hwf : HeapWf h) :
    HeapWf (h.alloc d).1 := by
  intro p hp
  unfold Heap.alloc at hp ⊢
  simp only [List.mem_append, List.mem_singleton] at hp
  rcases hp with hp | hp
  · exact Nat.lt_succ_of_lt (hwf _ hp)
  · simp [hp]

theorem set_wf (h : Heap) (id : NodeId) (d d0 : NodeData)
    (hwf : HeapWf h) (hid : h.get id = some d0) : HeapWf (h.set id d) := by
  intro p hp
  unfold Heap.set at hp
  rcases mem_setA _ _ _ _ hp with hp' | hp'
  · subst hp'
    exact get_lt_fresh h id d0 hwf hid
  · exact hwf _ hp'

theorem ensureWalk_wf (parts : List String) (h : Heap) (cur : NodeId)
    (hwf : HeapWf h) : HeapWf (ensureWalk h cur parts).1 := by
  induction parts generalizing h cur with
  | nil => exact hwf
  | cons p rest ih =>
      unfold ensureWalk
      split
      next es heq =>
        split
        next nxt hlk =>
          split
          next es2 heq2 => exact ih _ _ hwf
          next x heq2 => exact hwf
        next hlk =>
          exact ih _ _ (set_wf _ cur _ (NodeData.dir es) (alloc_wf h _ hwf)
            (get_alloc_of_some h cur _ _ heq))
      next x heq => exact hwf

/-- A successful `createFileIn` stores a fresh empty regular-file node and
links it under the final name of the (possibly just created) parent
directory. -/
theorem createFileIn_created (fs : FSState) (dirId : NodeId) (rel : String)
    (fs2 : FSState) (nid : NodeId) (hwf : HeapWf fs.heap)
    (h : fs.createFileIn dirId rel = (fs2, some nid)) :
    fs2.heap.get nid = some (NodeData.file []) ∧
    (∃ parentId es, fs2.heap.get parentId =
      some (NodeData.dir (setA es
        ((splitLast (normParts rel)).map Prod.snd |>.getD "") nid)) ∧
      lookupA (setA es ((splitLast (normParts rel)).map Prod.snd |>.getD "") nid)
        ((splitLast (normParts rel)).map Prod.snd |>.getD "") = some nid) := by
  unfold FSState.createFileIn at h
  cases hsp : splitLast (normParts rel) with
  | none => rw [hsp] at h; simp at h
  | some il =>
      obtain ⟨init, last⟩ := il
      rw [hsp] at h
      simp only at h
      cases he : (ensureWalk fs.heap dirId init).2 with
      | none => rw [he] at h; simp at h
      | some parentId =>
          rw [he] at h
          simp only at h
          have hwf1 : HeapWf (ensureWalk fs.heap dirId init).1 :=
            ensureWalk_wf init fs.heap dirId hwf
          cases hg : ((ensureWalk fs.heap dirId init).1.alloc
              (NodeData.file [])).1.get parentId with
          | none => rw [hg] at h; simp at h
          | some pd =>
              cases pd with
              | dir es =>
                  rw [hg] at h
                  simp only at h
                  have hfs2 := congrArg Prod.fst h
                  have hnid := congrArg Prod.snd h
                  simp only at hfs2 hnid
                  have hnid' := Option.some.inj hnid
                  subst hnid'
                  subst hfs2
                  have hnew : ((ensureWalk fs.heap dirId init).1.alloc
                      (NodeData.file [])).1.get
                      ((ensureWalk fs.heap dirId init).1.alloc
                        (NodeData.file [])).2 = some (NodeData.file []) :=
                    alloc_get_fresh _ _ hwf1
                  have hne : parentId ≠ ((ensureWalk fs.heap dirId init).1.alloc
                      (NodeData.file [])).2 := by
                    intro heq
                    rw [← heq] at hnew
                    rw [hg] at hnew
                    cases hnew
                  constructor
                  · rw [get_set_ne _ _ _ _ hne, hnew]
                  · refine ⟨parentId, es, ?_, ?_⟩
                    · simp only [Option.map_some', Option.getD_some]
                      exact get_set_self _ _ _
                    · simp only [Option.map_some', Option.getD_some]
                      exact lookupA_setA_self _ _ _
              | file c => rw [hg] at h; simp at h
              | charStdio k => rw [hg] at h; simp at h
              | charDevnull => rw [hg] at h; simp at h

/-- C3 (amended): for a `path_open` whose resolved guest path is not already
open (directory fd valid, `dirfd ≥ 3`): if the target exists and
`OFLAGS_EXCL` is set the call returns `EEXIST`; if the target exists, is a
regular file, and `OFLAGS_TRUNC` is set its content becomes empty; if the
target does not exist and `OFLAGS_CREAT` is unset the call returns `ENOENT`;
if the target does not exist and `OFLAGS_CREAT` is set and `createFileIn`
succeeds, an empty regular file is created; on each success a new open-file
entry with position 0 is stored at the fresh descriptor `nextFd`, that fd is
written to `opened_fd` as u32 little-endian, and `ESUCCESS` is returned —
but when `createFileIn` throws (an existing intermediate component is not a
directory) the call raises a host error instead: no descriptor is allocated
and `opened_fd` is not written. -/
theorem c3_path_open_flags (s : WasiState) (m : Mem) (dirfd : Nat)
    (path : String) (oflags openedFd : Nat) (de : OpenFile)
    (des : List (String × NodeId))
    (hwf : HeapWf s.fs.heap)
    (h3 : 3 ≤ dirfd)
    (hde : getFileFromFD s dirfd = some de)
    (hdir : s.fs.heap.get de.node = some (NodeData.dir des))
    (hnew : getFileFromPath s.files
      (normalizePath (joinGuest de.path path)) = none) :
    (∀ t, s.fs.resolve de.node path = some t →
      oflags &&& WASI_OFLAGS_EXCL ≠ 0 →
      mfs_path_open s m dirfd path oflags openedFd =
        (some WASI_ERRNO_EXIST, s, m)) ∧
    (∀ t c, s.fs.resolve de.node path = some t →
      oflags &&& WASI_OFLAGS_EXCL = 0 → oflags &&& WASI_OFLAGS_TRUNC ≠ 0 →
      s.fs.heap.get t = some (NodeData.file c) →
      mfs_path_open s m dirfd path oflags openedFd =
        (some WASI_ESUCCESS,
          ⟨⟨s.fs.heap.set t (NodeData.file []), s.fs.rootId, s.fs.preopenPaths⟩,
            setA s.files s.nextFd
              ⟨t, 0, normalizePath (joinGuest de.path path), false, none, s.nextFd⟩,
            s.nextFd + 1, s.stdin⟩,
          writeU32le m openedFd s.nextFd)) ∧
    (∀ t, s.fs.resolve de.node path = some t →
      oflags &&& WASI_OFLAGS_EXCL = 0 → oflags &&& WASI_OFLAGS_TRUNC = 0 →
      mfs_path_open s m dirfd path oflags openedFd =
        (some WASI_ESUCCESS,
          ⟨s.fs, setA s.files s.nextFd
            ⟨t, 0, normalizePath (joinGuest de.path path), false, none, s.nextFd⟩,
            s.nextFd + 1, s.stdin⟩,
          writeU32le m openedFd s.nextFd)) ∧
    (s.fs.resolve de.node path = none → oflags &&& WASI_OFLAGS_CREAT = 0 →
      mfs_path_open s m dirfd path oflags openedFd =
        (some WASI_ERRNO_NOENT, s, m)) ∧
    (∀ fs2 nid, s.fs.resolve de.node path = none →
      oflags &&& WASI_OFLAGS_CREAT ≠ 0 →
      s.fs.createFileIn de.node path = (fs2, some nid) →
      fs2.heap.get nid = some (NodeData.file []) ∧
      mfs_path_open s m dirfd path oflags openedFd =
        (some WASI_ESUCCESS,
          ⟨fs2, setA s.files s.nextFd
            ⟨nid, 0, normalizePath (joinGuest de.path path), false, none, s.nextFd⟩,
            s.nextFd + 1, s.stdin⟩,
          writeU32le m openedFd s.nextFd)) ∧
    (∀ fs2, s.fs.resolve de.node path = none →
      oflags &&& WASI_OFLAGS_CREAT ≠ 0 →
      s.fs.createFileIn de.node path = (fs2, none) →
      mfs_path_open s m dirfd path oflags openedFd =
        (none, ⟨fs2, s.files, s.nextFd, s.stdin⟩, m)) := by
  refine ⟨fun t hres hexcl => ?_, fun t c hres hexcl htr hfile => ?_,
    fun t hres hexcl htr => ?_, fun hres hcreat => ?_,
    fun fs2 nid hres hcreat hcr => ?_, fun fs2 hres hcreat hcr => ?_⟩
  · simp [mfs_path_open, Nat.not_lt.mpr h3, hde, hdir, hnew, hres, hexcl]
  · simp [mfs_path_open, openAlloc, Nat.not_lt.mpr h3, hde, hdir, hnew, hres,
      hexcl, htr, hfile]
  · simp [mfs_path_open, openAlloc, Nat.not_lt.mpr h3, hde, hdir, hnew, hres,
      hexcl, htr]
  · simp [mfs_path_open, Nat.not_lt.mpr h3, hde, hdir, hnew, hres, hcreat]
  · refine ⟨(createFileIn_created s.fs de.node path fs2 nid hwf hcr).1, ?_⟩
    simp [mfs_path_open, openAlloc, Nat.not_lt.mpr h3, hde, hdir, hnew, hres,
      hcreat, hcr]
  · simp [mfs_path_open, Nat.not_lt.mpr h3, hde, hdir, hnew, hres, hcreat, hcr]

/-- C3 counterexample: with a regular file at `/a`, opening `a/b` with
`OFLAGS_CREAT` on the root preopen (the target does not exist, the path is
not already open) does not create a file and return `ESUCCESS`: the call
raises a host error (`createFileIn` throws on the non-directory intermediate
`a`), refuting the claim's creation case as stated. -/
theorem c3_path_open_counterexample :
    (getFileFromPath exSa.files "/a/b" = none) ∧
    exSa.fs.resolve 0 "a/b" = none ∧
    (mfs_path_open exSa exMem 3 "a/b" 1 100).1 = none ∧
    ¬ (mfs_path_open exSa exMem 3 "a/b" 1 100).1 = some WASI_ESUCCESS := by
  refine ⟨rfl, rfl, rfl, by decide⟩

/-- C3 witness: opening the absent `missing` without `OFLAGS_CREAT` on the
fresh state returns `ENOENT` and changes nothing. -/
theorem c3_path_open_flags_witness :
    mfs_path_open exS0 exMem 3 "missing" 0 100 =
      (some WASI_ERRNO_NOENT, exS0, exMem) :=
  (c3_path_open_flags exS0 exMem 3 "missing" 0 100
    ⟨0, 0, "/", true, some "/", 3⟩ [("dev", 1)] (by unfold HeapWf; decide)
    (by decide) (by decide) (by decide)
    (by decide)).2.2.2.1 (by decide) (by decide)

/-! ### C9: `ReadableTextProxy.readv` chunking -/

theorem fillLoop_spec (chunks : List (List Nat)) (rem : Nat)
    (h : ∀ c ∈ chunks, c ≠ []) :
    (fillLoop chunks rem).1 =
      chunks.flatten.take (min rem chunks.flatten.length) ∧
    pendingBytes (fillLoop chunks rem).2.1 ++
        (fillLoop chunks rem).2.2.1.flatten =
      chunks.flatten.drop (min rem chunks.flatten.length) ∧
    ((fillLoop chunks rem).2.2.2 = true → chunks.flatten.length < rem) ∧
    ((fillLoop chunks rem).2.2.2 = false →
      min rem chunks.flatten.length = rem) ∧
    (∀ c ∈ (fillLoop chunks rem).2.2.1, c ≠ []) := by
  induction chunks generalizing rem with
  | nil =>
      cases rem with
      | zero => simp [fillLoop, pendingBytes]
      | succ r => simp [fillLoop, pendingBytes]
  | cons c cs ih =>
      cases rem with
      | zero =>
          refine ⟨by simp [fillLoop], by simp [fillLoop, pendingBytes],
            by simp [fillLoop], by simp [fillLoop], ?_⟩
          simpa [fillLoop] using h
      | succ r =>
          have hc : c ≠ [] := h c (List.mem_cons_self _ _)
          have h' : ∀ x ∈ cs, x ≠ [] :=
            fun x hx => h x (List.mem_cons_of_mem _ hx)
          by_cases hlt : r + 1 < c.length
          · have heq : fillLoop (c :: cs) (r + 1) =
                (c.take (r + 1), some (c.drop (r + 1)), cs, false) := by
              simp [fillLoop, hc, hlt]
            have hsub : r + 1 - c.length = 0 :=
              Nat.sub_eq_zero_of_le (le_of_lt hlt)
            have hmin : min (r + 1) (c :: cs).flatten.length = r + 1 := by
              simp only [List.flatten_cons, List.length_append]
              omega
            rw [heq, hmin]
            refine ⟨?_, ?_, by simp, fun _ => rfl, h'⟩
            · simp [List.flatten_cons, List.take_append_eq_append_take, hsub]
            · simp [List.flatten_cons, List.drop_append_eq_append_drop, hsub,
                pendingBytes]
          · push_neg at hlt
            have heq : fillLoop (c :: cs) (r + 1) =
                (c ++ (fillLoop cs (r + 1 - c.length)).1,
                  (fillLoop cs (r + 1 - c.length)).2.1,
                  (fillLoop cs (r + 1 - c.length)).2.2.1,
                  (fillLoop cs (r + 1 - c.length)).2.2.2) := by
              simp [fillLoop, hc, Nat.not_lt.mpr hlt]
            obtain ⟨ih1, ih2, ih3, ih4, ih5⟩ := ih (r + 1 - c.length) h'
            have hmin : min (r + 1) (c :: cs).flatten.length =
                c.length + min (r + 1 - c.length) cs.flatten.length := by
              simp only [List.flatten_cons, List.length_append]
              omega
            rw [heq, hmin]
            refine ⟨?_, ?_, fun he => ?_, fun he => ?_, ih5⟩
            · rw [List.flatten_cons, List.take_append_eq_append_take,
                List.take_of_length_le (Nat.le_add_right _ _),
                Nat.add_sub_cancel_left, ih1]
            · rw [List.flatten_cons, List.drop_append_eq_append_drop,
                List.drop_eq_nil_of_le (Nat.le_add_right _ _),
                Nat.add_sub_cancel_left, List.nil_append, ih2]
            · have := ih3 he
              simp only [List.flatten_cons, List.length_append]
              omega
            · have := ih4 he
              omega

theorem fillOne_spec (st : ProxyState) (len : Nat)
    (h : ∀ c ∈ st.chunks, c ≠ []) :
    (fillOne st len).1 =
      (pendingBytes st.pending ++ st.chunks.flatten).take
        (min len (pendingBytes st.pending ++ st.chunks.flatten).length) ∧
    pendingBytes (fillOne st len).2.1 ++ (fillOne st len).2.2.1.flatten =
      (pendingBytes st.pending ++ st.chunks.flatten).drop
        (min len (pendingBytes st.pending ++ st.chunks.flatten).length) ∧
    ((fillOne st len).2.2.2 = true →
      (pendingBytes st.pending ++ st.chunks.flatten).length < len) ∧
    ((fillOne st len).2.2.2 = false →
      min len (pendingBytes st.pending ++ st.chunks.flatten).length = len) ∧
    (∀ c ∈ (fillOne st len).2.2.1, c ≠ []) := by
  obtain ⟨pending, chunks⟩ := st
  simp only at h
  cases pending with
  | none =>
      rw [show pendingBytes (none : Option (List Nat)) = ([] : List Nat)
        from rfl, List.nil_append]
      by_cases hz : len = 0
      · subst hz
        refine ⟨by simp [fillOne, pendingBytes],
          by simp [fillOne, pendingBytes], by simp [fillOne],
          by simp [fillOne], ?_⟩
        simpa [fillOne] using h
      · have heq : fillOne ⟨none, chunks⟩ len =
            ((fillLoop chunks len).1, (fillLoop chunks len).2.1,
              (fillLoop chunks len).2.2.1, (fillLoop chunks len).2.2.2) := by
          simp [fillOne, hz]
        have e1 : (fillOne ⟨none, chunks⟩ len).1 = (fillLoop chunks len).1 := by
          rw [heq]
        have e21 : (fillOne ⟨none, chunks⟩ len).2.1 =
            (fillLoop chunks len).2.1 := by rw [heq]
        have e221 : (fillOne ⟨none, chunks⟩ len).2.2.1 =
            (fillLoop chunks len).2.2.1 := by rw [heq]
        have e222 : (fillOne ⟨none, chunks⟩ len).2.2.2 =
            (fillLoop chunks len).2.2.2 := by rw [heq]
        obtain ⟨s1, s2, s3, s4, s5⟩ := fillLoop_spec chunks len h
        refine ⟨?_, ?_, ?_, ?_, ?_⟩
        · rw [e1, s1]
        · rw [e21, e221, s2]
        · rw [e222]; exact s3
        · rw [e222]; exact s4
        · rw [e221]; exact s5
  | some p =>
      rw [show pendingBytes (some p) = p from rfl]
      by_cases hlt : p.length < len
      · have hpc : consumePending p len = (p, none) := by
          simp [consumePending, hlt]
        have hrem : len - p.length ≠ 0 := by omega
        have heq : fillOne ⟨some p, chunks⟩ len =
            (p ++ (fillLoop chunks (len - p.length)).1,
              (fillLoop chunks (len - p.length)).2.1,
              (fillLoop chunks (len - p.length)).2.2.1,
              (fillLoop chunks (len - p.length)).2.2.2) := by
          simp [fillOne, hpc, hrem]
        have e1 : (fillOne ⟨some p, chunks⟩ len).1 =
            p ++ (fillLoop chunks (len - p.length)).1 := by rw [heq]
        have e21 : (fillOne ⟨some p, chunks⟩ len).2.1 =
            (fillLoop chunks (len - p.length)).2.1 := by rw [heq]
        have e221 : (fillOne ⟨some p, chunks⟩ len).2.2.1 =
            (fillLoop chunks (len - p.length)).2.2.1 := by rw [heq]
        have e222 : (fillOne ⟨some p, chunks⟩ len).2.2.2 =
            (fillLoop chunks (len - p.length)).2.2.2 := by rw [heq]
        obtain ⟨s1, s2, s3, s4, s5⟩ := fillLoop_spec chunks (len - p.length) h
        have hmin : min len (p ++ chunks.flatten).length =
            p.length + min (len - p.length) chunks.flatten.length := by
          simp only [List.length_append]
          omega
        rw [hmin]
        refine ⟨?_, ?_, fun he => ?_, fun he => ?_, ?_⟩
        · rw [e1, List.take_append_eq_append_take,
            List.take_of_length_le (Nat.le_add_right _ _),
            Nat.add_sub_cancel_left, s1]
        · rw [e21, e221, List.drop_append_eq_append_drop,
            List.drop_eq_nil_of_le (Nat.le_add_right _ _),
            Nat.add_sub_cancel_left, List.nil_append, s2]
        · rw [e222] at he
          have := s3 he
          simp only [List.length_append]
          omega
        · rw [e222] at he
          have := s4 he
          omega
        · rw [e221]; exact s5
      · push_neg at hlt
        have hpc : consumePending p len = (p.take len, some (p.drop len)) := by
          simp [consumePending, Nat.not_lt.mpr hlt]
        have hrem : len - len ⊓ p.length = 0 := by omega
        have heq : fillOne ⟨some p, chunks⟩ len =
            (p.take len, some (p.drop len), chunks, false) := by
          simp [fillOne, hpc, hrem]
        have e1 : (fillOne ⟨some p, chunks⟩ len).1 = p.take len := by rw [heq]
        have e21 : (fillOne ⟨some p, chunks⟩ len).2.1 = some (p.drop len) := by
          rw [heq]
        have e221 : (fillOne ⟨some p, chunks⟩ len).2.2.1 = chunks := by
          rw [heq]
        have e222 : (fillOne ⟨some p, chunks⟩ len).2.2.2 = false := by
          rw [heq]
        have hmin : min len (p ++ chunks.flatten).length = len := by
          simp only [List.length_append]
          omega
        have hsub : len - p.length = 0 := Nat.sub_eq_zero_of_le hlt
        rw [hmin]
        refine ⟨?_, ?_, fun he => ?_, fun _ => rfl, ?_⟩
        · rw [e1, List.take_append_eq_append_take, hsub]
          simp
        · rw [e21, e221, show pendingBytes (some (p.drop len)) = p.drop len
            from rfl, List.drop_append_eq_append_drop, hsub]
          simp
        · rw [e222] at he
          cases he
        · rw [e221]; exact h

/-- C9: for every carry-over buffer, every finite sequence of non-empty
chunks that `consume()` will produce (after which it yields the empty value,
i.e. EOF), and every iovec partition of the destination space,
`ReadableTextProxy.readv` returns exactly
`min (sum of iovec lengths) (carry-over bytes + total chunk bytes)`; the
bytes written across the buffers are, in order, exactly that prefix of the
byte stream; and the residual bytes (new carry-over plus unconsumed chunks)
are exactly the rest of the stream, retained for the next `readv` call,
whose chunks are again all non-empty. -/
theorem c9_readv_chunking (st : ProxyState) (iovs : List Nat)
    (h : ∀ c ∈ st.chunks, c ≠ []) :
    (readvGo st iovs).1 =
      min iovs.sum (pendingBytes st.pending ++ st.chunks.flatten).length ∧
    (readvGo st iovs).2.1.flatten =
      (pendingBytes st.pending ++ st.chunks.flatten).take (readvGo st iovs).1 ∧
    pendingBytes (readvGo st iovs).2.2.pending ++
        (readvGo st iovs).2.2.chunks.flatten =
      (pendingBytes st.pending ++ st.chunks.flatten).drop (readvGo st iovs).1 ∧
    (∀ c ∈ (readvGo st iovs).2.2.chunks, c ≠ []) := by
  induction iovs generalizing st with
  | nil =>
      refine ⟨by simp [readvGo], by simp [readvGo], by simp [readvGo], ?_⟩
      simpa [readvGo] using h
  | cons len rest ih =>
      obtain ⟨s1, s2, s3, s4, s5⟩ := fillOne_spec st len h
      by_cases heof : (fillOne st len).2.2.2 = true
      · have heq : readvGo st (len :: rest) =
            ((fillOne st len).1.length, [(fillOne st len).1],
              ⟨(fillOne st len).2.1, (fillOne st len).2.2.1⟩) := by
          simp [readvGo, heof]
        have hlen : (pendingBytes st.pending ++ st.chunks.flatten).length < len :=
          s3 heof
        have hmin : min len (pendingBytes st.pending ++ st.chunks.flatten).length =
            (pendingBytes st.pending ++ st.chunks.flatten).length := by omega
        have hcount : (fillOne st len).1.length =
            (pendingBytes st.pending ++ st.chunks.flatten).length := by
          rw [s1, List.length_take]
          omega
        rw [heq]
        refine ⟨?_, ?_, ?_, ?_⟩
        · simp only [hcount, List.sum_cons]
          omega
        · simp only [List.flatten_cons, List.flatten_nil, List.append_nil,
            hcount]
          rw [s1, hmin]
        · simp only [hcount]
          show pendingBytes (fillOne st len).2.1 ++
              (fillOne st len).2.2.1.flatten =
            (pendingBytes st.pending ++ st.chunks.flatten).drop
              (pendingBytes st.pending ++ st.chunks.flatten).length
          rw [s2, hmin]
        · intro c hc
          exact s5 c hc
      · have heofF : (fillOne st len).2.2.2 = false := by
          cases hb : (fillOne st len).2.2.2
          · rfl
          · exact absurd hb heof
        have hmin : min len (pendingBytes st.pending ++ st.chunks.flatten).length =
            len := s4 heofF
        have hlen : len ≤ (pendingBytes st.pending ++ st.chunks.flatten).length := by
          omega
        have hcount : (fillOne st len).1.length = len := by
          rw [s1, List.length_take]
          omega
        have heq : readvGo st (len :: rest) =
            ((fillOne st len).1.length +
              (readvGo ⟨(fillOne st len).2.1, (fillOne st len).2.2.1⟩ rest).1,
              (fillOne st len).1 ::
                (readvGo ⟨(fillOne st len).2.1, (fillOne st len).2.2.1⟩ rest).2.1,
              (readvGo ⟨(fillOne st len).2.1, (fillOne st len).2.2.1⟩ rest).2.2) := by
          simp [readvGo, heofF]
        obtain ⟨ih1, ih2, ih3, ih4⟩ :=
          ih ⟨(fillOne st len).2.1, (fillOne st len).2.2.1⟩ s5
        have hstream : pendingBytes (fillOne st len).2.1 ++
            (fillOne st len).2.2.1.flatten =
            (pendingBytes st.pending ++ st.chunks.flatten).drop len := by
          rw [s2, hmin]
        simp only at ih1 ih2 ih3
        rw [hstream] at ih1 ih2 ih3
        have hlen2 : ((pendingBytes st.pending ++ st.chunks.flatten).drop
            len).length = (pendingBytes st.pending ++ st.chunks.flatten).length
            - len := by
          simp [List.length_drop]
        rw [heq]
        refine ⟨?_, ?_, ?_, ?_⟩
        · show (fillOne st len).1.length +
              (readvGo ⟨(fillOne st len).2.1, (fillOne st len).2.2.1⟩ rest).1 =
            min (len :: rest).sum
              (pendingBytes st.pending ++ st.chunks.flatten).length
          rw [hcount, ih1, hlen2, List.sum_cons]
          omega
        · show ((fillOne st len).1 ::
              (readvGo ⟨(fillOne st len).2.1,
                (fillOne st len).2.2.1⟩ rest).2.1).flatten =
            (pendingBytes st.pending ++ st.chunks.flatten).take
              ((fillOne st len).1.length +
                (readvGo ⟨(fillOne st len).2.1, (fillOne st len).2.2.1⟩ rest).1)
          rw [List.flatten_cons, hcount, ih2, s1, hmin, ← List.take_add]
        · show pendingBytes (readvGo ⟨(fillOne st len).2.1,
              (fillOne st len).2.2.1⟩ rest).2.2.pending ++
              (readvGo ⟨(fillOne st len).2.1,
                (fillOne st len).2.2.1⟩ rest).2.2.chunks.flatten =
            (pendingBytes st.pending ++ st.chunks.flatten).drop
              ((fillOne st len).1.length +
                (readvGo ⟨(fillOne st len).2.1, (fillOne st len).2.2.1⟩ rest).1)
          rw [hcount, ih3, List.drop_drop, Nat.add_comm]
        · exact ih4

/-- C9 witness: carry-over `[9]` plus chunks `[1,2,3]`, `[4]` (then EOF)
across iovec lengths `[2, 2]`: 4 bytes are read (`min 4 5`), the buffers
receive `[9,1]` and `[2,3]` in order, and the residual byte 4 is retained
in the proxy for the next call. -/
theorem c9_readv_chunking_witness :
    (readvGo ⟨some [9], [[1, 2, 3], [4]]⟩ [2, 2]).1 =
      min ([2, 2] : List Nat).sum
        (pendingBytes (some [9]) ++ ([[1, 2, 3], [4]] : List (List Nat)).flatten).length ∧
    (readvGo ⟨some [9], [[1, 2, 3], [4]]⟩ [2, 2]).2.1.flatten =
      (pendingBytes (some [9]) ++
        ([[1, 2, 3], [4]] : List (List Nat)).flatten).take
        (readvGo ⟨some [9], [[1, 2, 3], [4]]⟩ [2, 2]).1 ∧
    pendingBytes (readvGo ⟨some [9], [[1, 2, 3], [4]]⟩ [2, 2]).2.2.pending ++
        (readvGo ⟨some [9], [[1, 2, 3], [4]]⟩ [2, 2]).2.2.chunks.flatten =
      (pendingBytes (some [9]) ++
        ([[1, 2, 3], [4]] : List (List Nat)).flatten).drop
        (readvGo ⟨some [9], [[1, 2, 3], [4]]⟩ [2, 2]).1 ∧
    (∀ c ∈ (readvGo ⟨some [9], [[1, 2, 3], [4]]⟩ [2, 2]).2.2.chunks, c ≠ []) :=
  c9_readv_chunking ⟨some [9], [[1, 2, 3], [4]]⟩ [2, 2] (by decide)

/-! ### C8: descriptor numbering -/

theorem step_updA (files : List (Nat × OpenFile)) (fd : Nat) (g : OpenFile)
    (p : Nat × OpenFile) (hp : p ∈ updA files fd g) :
    ∃ e, (p.1, e) ∈ files := by
  obtain ⟨q, hq, he⟩ := mem_updA files fd g p hp
  refine ⟨q.2, ?_⟩
  rw [he]
  exact hq

theorem step_openAlloc (files : List (Nat × OpenFile)) (nextFd : Nat)
    (e : OpenFile) (p : Nat × OpenFile) (hp : p ∈ setA files nextFd e) :
    (∃ e', (p.1, e') ∈ files) ∨ (p.1 = nextFd ∧ nextFd < nextFd + 1) := by
  rcases mem_setA _ _ _ _ hp with h | h
  · subst h
    exact Or.inr ⟨rfl, Nat.lt_succ_self _⟩
  · exact Or.inl ⟨p.2, h⟩

/-- Every guest call leaves `nextFd` non-decreasing, and every entry of the
resulting table either reuses a key that was already present or is the
freshly allocated `nextFd` (in which case `nextFd` strictly grew). -/
theorem applyOp_step (s : WasiState) (m : Mem) (op : MOp) :
    s.nextFd ≤ (applyOp s m op).2.1.nextFd ∧
    ∀ p ∈ (applyOp s m op).2.1.files,
      (∃ e, (p.1, e) ∈ s.files) ∨
        (p.1 = s.nextFd ∧ s.nextFd < (applyOp s m op).2.1.nextFd) := by
  cases op with
  | opRead fd iovs nread =>
      simp only [applyOp]
      unfold mfs_fd_read
      repeat' split
      all_goals try simp only []
      repeat' split
      all_goals
        first
          | exact ⟨le_refl _, fun p hp => Or.inl ⟨p.2, hp⟩⟩
          | exact ⟨le_refl _, fun p hp => Or.inl (step_updA _ _ _ p hp)⟩
  | opWrite fd iovs nwritten =>
      simp only [applyOp]
      unfold mfs_fd_write
      repeat' split
      all_goals try simp only []
      repeat' split
      all_goals
        first
          | exact ⟨le_refl _, fun p hp => Or.inl ⟨p.2, hp⟩⟩
          | exact ⟨le_refl _, fun p hp => Or.inl (step_updA _ _ _ p hp)⟩
  | opClose fd =>
      simp only [applyOp]
      unfold mfs_fd_close
      repeat' split
      all_goals try simp only []
      repeat' split
      all_goals
        first
          | exact ⟨le_refl _, fun p hp => Or.inl ⟨p.2, hp⟩⟩
          | exact ⟨le_refl _, fun p hp => Or.inl ⟨p.2, mem_delA _ _ _ hp⟩⟩
  | opSeek fd offset whence newOffset =>
      simp only [applyOp]
      unfold mfs_fd_seek
      repeat' split
      all_goals try simp only []
      repeat' split
      all_goals
        first
          | exact ⟨le_refl _, fun p hp => Or.inl ⟨p.2, hp⟩⟩
          | exact ⟨le_refl _, fun p hp => Or.inl (step_updA _ _ _ p hp)⟩
  | opTell fd offsetPtr =>
      simp only [applyOp]
      unfold mfs_fd_tell
      repeat' split
      all_goals try simp only []
      repeat' split
      all_goals exact ⟨le_refl _, fun p hp => Or.inl ⟨p.2, hp⟩⟩
  | opFdstatGet fd buf =>
      simp only [applyOp]
      unfold mfs_fd_fdstat_get
      repeat' split
      all_goals try simp only []
      repeat' split
      all_goals exact ⟨le_refl _, fun p hp => Or.inl ⟨p.2, hp⟩⟩
  | opFilestatGet fd buf =>
      simp only [applyOp]
      unfold mfs_fd_filestat_get
      repeat' split
      all_goals try simp only []
      repeat' split
      all_goals exact ⟨le_refl _, fun p hp => Or.inl ⟨p.2, hp⟩⟩
  | opPrestatGet fd buf =>
      simp only [applyOp]
      unfold mfs_fd_prestat_get
      repeat' split
      all_goals try simp only []
      repeat' split
      all_goals exact ⟨le_refl _, fun p hp => Or.inl ⟨p.2, hp⟩⟩
  | opPrestatDirName fd pathPtr pathLen =>
      simp only [applyOp]
      unfold mfs_fd_prestat_dir_name
      repeat' split
      all_goals try simp only []
      repeat' split
      all_goals exact ⟨le_refl _, fun p hp => Or.inl ⟨p.2, hp⟩⟩
  | opPathOpen dirfd path oflags openedFd =>
      simp only [applyOp]
      unfold mfs_path_open openAlloc
      repeat' split
      all_goals try simp only []
      repeat' split
      all_goals
        first
          | exact ⟨le_refl _, fun p hp => Or.inl ⟨p.2, hp⟩⟩
          | exact ⟨Nat.le_succ _, fun p hp =>
              step_openAlloc s.files s.nextFd _ p hp⟩
  | opPathCreateDirectory fd path =>
      simp only [applyOp]
      unfold mfs_path_create_directory
      repeat' split
      all_goals try simp only []
      repeat' split
      all_goals exact ⟨le_refl _, fun p hp => Or.inl ⟨p.2, hp⟩⟩
  | opPathUnlinkFile fd path =>
      simp only [applyOp]
      unfold mfs_path_unlink_file
      repeat' split
      all_goals try simp only []
      repeat' split
      all_goals exact ⟨le_refl _, fun p hp => Or.inl ⟨p.2, hp⟩⟩
  | opPathRemoveDirectory fd path =>
      simp only [applyOp]
      unfold mfs_path_remove_directory
      repeat' split
      all_goals try simp only []
      repeat' split
      all_goals exact ⟨le_refl _, fun p hp => Or.inl ⟨p.2, hp⟩⟩
  | opPathFilestatGet fd path buf =>
      simp only [applyOp]
      unfold mfs_path_filestat_get
      repeat' split
      all_goals try simp only []
      repeat' split
      all_goals exact ⟨le_refl _, fun p hp => Or.inl ⟨p.2, hp⟩⟩

theorem DirLe_refl (h : Heap) : DirLe h h :=
  fun _ es hget => ⟨es, hget, fun _ _ hv => hv⟩

theorem DirLe_trans {h1 h2 h3 : Heap} (a : DirLe h1 h2) (b : DirLe h2 h3) :
    DirLe h1 h3 := by
  intro id es hget
  obtain ⟨es', hget', hsub⟩ := a id es hget
  obtain ⟨es'', hget'', hsub'⟩ := b id es' hget'
  exact ⟨es'', hget'', fun k v hv => hsub' k v (hsub k v hv)⟩

theorem DirLe_alloc (h : Heap) (d : NodeData) : DirLe h (h.alloc d).1 :=
  fun id es hget => ⟨es, get_alloc_of_some h id _ d hget, fun _ _ hv => hv⟩

theorem DirLe_set_addEntry (h : Heap) (cur : NodeId)
    (es : List (String × NodeId)) (p : String) (nid : NodeId)
    (hget : h.get cur = some (NodeData.dir es))
    (hmiss : lookupA es p = none) :
    DirLe h (h.set cur (NodeData.dir (setA es p nid))) := by
  intro id es0 hget0
  by_cases hid : cur = id
  · subst hid
    rw [hget] at hget0
    have hes : es = es0 := by
      injection Option.some.inj hget0
    subst hes
    refine ⟨setA es p nid, get_set_self _ _ _, fun k v hv => ?_⟩
    have hk : p ≠ k := by
      intro he
      rw [he] at hmiss
      rw [hmiss] at hv
      cases hv
    rw [lookupA_setA_ne _ _ _ _ hk]
    exact hv
  · refine ⟨es0, ?_, fun _ _ hv => hv⟩
    rw [get_set_ne _ _ _ _ hid]
    exact hget0

theorem ensureWalk_dirle (parts : List String) (h : Heap) (cur : NodeId) :
    DirLe h (ensureWalk h cur parts).1 := by
  induction parts generalizing h cur with
  | nil => exact DirLe_refl h
  | cons p rest ih =>
      unfold ensureWalk
      split
      next es heq =>
        split
        next nxt hlk =>
          split
          next es2 heq2 => exact ih h nxt
          next x heq2 => exact DirLe_refl h
        next hlk =>
          exact DirLe_trans
            (DirLe_trans (DirLe_alloc h (NodeData.dir []))
              (DirLe_set_addEntry (h.alloc (NodeData.dir [])).1 cur es p
                (h.alloc (NodeData.dir [])).2
                (get_alloc_of_some h cur _ _ heq) hlk))
            (ih _ _)
      next x heq => exact DirLe_refl h

theorem lookupGo_mono (parts : List String) (h h' : Heap) (hDL : DirLe h h')
    (cur id : NodeId) (hgo : lookupGo h cur parts = some id) :
    lookupGo h' cur parts = some id := by
  induction parts generalizing cur with
  | nil => simpa [lookupGo] using hgo
  | cons p rest ih =>
      simp only [lookupGo] at hgo ⊢
      cases hget : h.get cur with
      | none => simp [hget] at hgo
      | some nd =>
          cases nd with
          | dir es =>
              simp only [hget] at hgo
              obtain ⟨es', hget', hsub⟩ := hDL cur es hget
              simp only [hget']
              cases hlk : lookupA es p with
              | none => simp [hlk] at hgo
              | some nxt =>
                  simp only [hlk] at hgo
                  rw [hsub p nxt hlk]
                  exact ih nxt hgo
          | file c => simp [hget] at hgo
          | charStdio k => simp [hget] at hgo
          | charDevnull => simp [hget] at hgo

theorem ensureWalk_result (parts : List String) (h : Heap) (cur : NodeId)
    (hwf : HeapWf h) (es0 : List (String × NodeId))
    (hcur : h.get cur = some (NodeData.dir es0)) (d : NodeId)
    (hd : (ensureWalk h cur parts).2 = some d) :
    ∃ es', (ensureWalk h cur parts).1.get d = some (NodeData.dir es') := by
  induction parts generalizing h cur es0 with
  | nil =>
      simp only [ensureWalk, Option.some.injEq] at hd
      subst hd
      exact ⟨es0, hcur⟩
  | cons p rest ih =>
      simp only [ensureWalk] at hd ⊢
      simp only [hcur] at hd ⊢
      cases hlk : lookupA es0 p with
      | some nxt =>
          simp only [hlk] at hd ⊢
          cases hn : h.get nxt with
          | none => simp [hn] at hd
          | some nd =>
              cases nd with
              | dir es2 =>
                  simp only [hn] at hd ⊢
                  exact ih h nxt hwf es2 hn hd
              | file c => simp [hn] at hd
              | charStdio k => simp [hn] at hd
              | charDevnull => simp [hn] at hd
      | none =>
          simp only [hlk] at hd ⊢
          refine ih ((h.alloc (NodeData.dir [])).1.set cur
              (NodeData.dir (setA es0 p (h.alloc (NodeData.dir [])).2)))
            (h.alloc (NodeData.dir [])).2 ?_ [] ?_ hd
          · exact set_wf _ cur _ (NodeData.dir es0) (alloc_wf h _ hwf)
              (get_alloc_of_some h cur _ _ hcur)
          · rw [get_set_ne]
            · exact alloc_get_fresh h (NodeData.dir []) hwf
            · have hlt := get_lt_fresh h cur (NodeData.dir es0) hwf hcur
              intro he
              exact absurd he (Nat.ne_of_lt hlt)

theorem ensureWalk_lookup (parts : List String) (h : Heap) (cur : NodeId)
    (hwf : HeapWf h) (es0 : List (String × NodeId))
    (hcur : h.get cur = some (NodeData.dir es0)) (d : NodeId)
    (hd : (ensureWalk h cur parts).2 = some d) :
    lookupGo (ensureWalk h cur parts).1 cur parts = some d := by
  induction parts generalizing h cur es0 with
  | nil =>
      simp only [ensureWalk, Option.some.injEq] at hd
      simp [ensureWalk, lookupGo, hd]
  | cons p rest ih =>
      simp only [ensureWalk] at hd ⊢
      simp only [hcur] at hd ⊢
      cases hlk : lookupA es0 p with
      | some nxt =>
          simp only [hlk] at hd ⊢
          cases hn : h.get nxt with
          | none => simp [hn] at hd
          | some nd =>
              cases nd with
              | dir es2 =>
                  simp only [hn] at hd ⊢
                  have hrec := ih h nxt hwf es2 hn hd
                  obtain ⟨es', hcur', hsub⟩ :=
                    ensureWalk_dirle rest h nxt cur es0 hcur
                  simp [lookupGo, hcur', hsub p nxt hlk, hrec]
              | file c => simp [hn] at hd
              | charStdio k => simp [hn] at hd
              | charDevnull => simp [hn] at hd
      | none =>
          simp only [hlk] at hd ⊢
          have hwf1 : HeapWf (h.alloc (NodeData.dir [])).1 :=
            alloc_wf h _ hwf
          have hne : cur ≠ (h.alloc (NodeData.dir [])).2 := by
            have hlt := get_lt_fresh h cur (NodeData.dir es0) hwf hcur
            intro he
            exact absurd he (Nat.ne_of_lt hlt)
          have hwf2 : HeapWf ((h.alloc (NodeData.dir [])).1.set cur
              (NodeData.dir (setA es0 p (h.alloc (NodeData.dir [])).2))) :=
            set_wf _ cur _ (NodeData.dir es0) hwf1
              (get_alloc_of_some h cur _ _ hcur)
          have hnid : ((h.alloc (NodeData.dir [])).1.set cur
              (NodeData.dir (setA es0 p (h.alloc (NodeData.dir [])).2))).get
              (h.alloc (NodeData.dir [])).2 = some (NodeData.dir []) := by
            rw [get_set_ne _ _ _ _ hne]
            exact alloc_get_fresh h (NodeData.dir []) hwf
          have hrec := ih _ _ hwf2 [] hnid hd
          obtain ⟨es', hcur', hsub⟩ :=
            ensureWalk_dirle rest
              ((h.alloc (NodeData.dir [])).1.set cur
                (NodeData.dir (setA es0 p (h.alloc (NodeData.dir [])).2)))
              (h.alloc (NodeData.dir [])).2 cur
              (setA es0 p (h.alloc (NodeData.dir [])).2) (get_set_self _ _ _)
          have hpe : lookupA es' p = some (h.alloc (NodeData.dir [])).2 :=
            hsub p _ (lookupA_setA_self es0 p _)
          simp [lookupGo, hcur', hpe, hrec]

/-- A successful `ensureDir` preserves well-formedness and the existing
preopens, and the ensured path itself now resolves to a directory, so
registering it keeps the file system good. -/
theorem ensureDir_good (fs : FSState) (path : String) (hg : GoodFS fs)
    (d : NodeId) (hd : (fs.ensureDir path).2 = some d) :
    GoodFS ⟨(fs.ensureDir path).1.heap, (fs.ensureDir path).1.rootId,
      (fs.ensureDir path).1.preopenPaths ++ [path]⟩ := by
  obtain ⟨hwf, ⟨res, hroot⟩, hpre⟩ := hg
  have hd' : (ensureWalk fs.heap fs.rootId (normParts path)).2 = some d := hd
  have hDL : DirLe fs.heap (ensureWalk fs.heap fs.rootId (normParts path)).1 :=
    ensureWalk_dirle _ _ _
  refine ⟨ensureWalk_wf _ _ _ hwf, ?_, ?_⟩
  · obtain ⟨es', hr', _⟩ := hDL fs.rootId res hroot
    exact ⟨es', hr'⟩
  · intro p hp
    rcases List.mem_append.mp hp with hp' | hp'
    · obtain ⟨id, es, hlk, hdir⟩ := hpre p hp'
      obtain ⟨es', hdir', _⟩ := hDL id es hdir
      exact ⟨id, es', lookupGo_mono _ _ _ hDL _ _ hlk, hdir'⟩
    · have hpe : p = path := by simpa using hp'
      subst hpe
      obtain ⟨es', hes'⟩ :=
        ensureWalk_result (normParts p) fs.heap fs.rootId hwf res hroot d hd'
      exact ⟨d, es',
        ensureWalk_lookup (normParts p) fs.heap fs.rootId hwf res hroot d hd',
        hes'⟩

theorem foldl_mkFSStep_none (keys : List String) :
    keys.foldl mkFSStep none = none := by
  induction keys with
  | nil => rfl
  | cons k rest ih => simpa [mkFSStep] using ih

theorem mkFS_fold_good (keys : List String) :
    ∀ acc fs : FSState, GoodFS acc →
      keys.foldl mkFSStep (some acc) = some fs → GoodFS fs := by
  induction keys with
  | nil =>
      intro acc fs hg h
      simp only [List.foldl_nil, Option.some.injEq] at h
      subst h
      exact hg
  | cons k rest ih =>
      intro acc fs hg h
      simp only [List.foldl_cons] at h
      cases he : (acc.ensureDir k).2 with
      | none =>
          rw [show mkFSStep (some acc) k = none from by
            simp [mkFSStep, he]] at h
          rw [foldl_mkFSStep_none] at h
          cases h
      | some d =>
          rw [show mkFSStep (some acc) k =
              some ⟨(acc.ensureDir k).1.heap, (acc.ensureDir k).1.rootId,
                (acc.ensureDir k).1.preopenPaths ++ [k]⟩ from by
            simp [mkFSStep, he]] at h
          exact ih _ fs (ensureDir_good acc k hg d he) h

/-- Every file system produced by the `MemoryFileSystem` constructor is
good: well-formed heap, directory root, and every registered preopen
resolves to a directory. -/
theorem mkFS_good (ps : Option (List String)) (fs : FSState)
    (h : mkFS ps = some fs) : GoodFS fs := by
  cases ps with
  | none =>
      have h' : some (⟨⟨[(0, NodeData.dir [("dev", 1)]),
          (1, NodeData.dir [("null", 2)]), (2, NodeData.charDevnull)], 3⟩,
          0, ["/"]⟩ : FSState) = some fs := h
      have hfs := Option.some.inj h'
      subst hfs
      refine ⟨by unfold HeapWf; decide, ⟨[("dev", 1)], by decide⟩, ?_⟩
      intro p hp
      have hp' : p = "/" := by simpa using hp
      subst hp'
      exact ⟨0, [("dev", 1)], by decide, by decide⟩
  | some keys =>
      have h' : keys.foldl mkFSStep
          (some (⟨⟨[(0, NodeData.dir [("dev", 1)]),
            (1, NodeData.dir [("null", 2)]), (2, NodeData.charDevnull)], 3⟩,
            0, []⟩ : FSState)) = some fs := h
      refine mkFS_fold_good keys _ fs ⟨by unfold HeapWf; decide,
        ⟨[("dev", 1)], by decide⟩, ?_⟩ h'
      intro p hp
      cases hp

/-- When every path in the list resolves to a directory, the preopen loop
assigns exactly the consecutive descriptors `n, n+1, …` in list order. -/
theorem assignPreopens_spec (fs : FSState) (paths : List String) :
    ∀ n : Nat,
      (∀ p ∈ paths, ∃ id es, fs.lookupPath p = some id ∧
        fs.heap.get id = some (NodeData.dir es)) →
      (assignPreopens fs paths n).2 = n + paths.length ∧
      (assignPreopens fs paths n).1.map Prod.fst =
        List.range' n paths.length ∧
      (assignPreopens fs paths n).1.map (fun q => q.2.path) = paths ∧
      ∀ q ∈ (assignPreopens fs paths n).1,
        q.2.isPreopen = true ∧ q.2.preopenPath = some q.2.path ∧
        q.2.position = 0 ∧ q.2.fd = q.1 := by
  induction paths with
  | nil => intro n h; simp [assignPreopens]
  | cons p rest ih =>
      intro n h
      obtain ⟨id, es, hlk, hdir⟩ := h p (List.mem_cons_self _ _)
      obtain ⟨i1, i2, i3, i4⟩ :=
        ih (n + 1) (fun q hq => h q (List.mem_cons_of_mem _ hq))
      have heq : assignPreopens fs (p :: rest) n =
          ((n, ⟨id, 0, p, true, some p, n⟩) ::
            (assignPreopens fs rest (n + 1)).1,
            (assignPreopens fs rest (n + 1)).2) := by
        simp [assignPreopens, hlk, hdir]
      rw [heq]
      refine ⟨?_, ?_, ?_, ?_⟩
      · simp only [i1, List.length_cons]
        omega
      · simp only [List.map_cons, i2, List.length_cons, List.range'_succ]
      · simp [i3]
      · intro q hq
        rcases List.mem_cons.mp hq with hq' | hq'
        · subst hq'
          exact ⟨rfl, rfl, rfl, rfl⟩
        · exact i4 q hq'

/-- On a good file system, `useMemoryFS`'s setup binds stdio to descriptors
0–2 and gives the preopens the consecutive descriptors `3, 4, …` in
registration order; the resulting table satisfies the descriptor
invariant. -/
theorem initState_spec (fs : FSState) (chunks : List (List Nat))
    (hg : GoodFS fs) :
    (initState fs chunks).files.map Prod.fst =
      [0, 1, 2] ++ List.range' 3 fs.preopenPaths.length ∧
    ((initState fs chunks).files.drop 3).map (fun q => q.2.path) =
      fs.preopenPaths ∧
    (∀ q ∈ (initState fs chunks).files.drop 3,
      q.2.isPreopen = true ∧ q.2.preopenPath = some q.2.path) ∧
    (initState fs chunks).nextFd = 3 + fs.preopenPaths.length ∧
    Inv (initState fs chunks) := by
  obtain ⟨hwf, ⟨res, hroot⟩, hpre⟩ := hg
  have hDL : DirLe fs.heap
      (((fs.heap.alloc (NodeData.charStdio 0)).1.alloc
        (NodeData.charStdio 1)).1.alloc (NodeData.charStdio 2)).1 :=
    DirLe_trans (DirLe_trans (DirLe_alloc _ _) (DirLe_alloc _ _))
      (DirLe_alloc _ _)
  have hpre2 : ∀ p ∈ fs.preopenPaths,
      ∃ id es, (⟨(((fs.heap.alloc (NodeData.charStdio 0)).1.alloc
          (NodeData.charStdio 1)).1.alloc (NodeData.charStdio 2)).1,
          fs.rootId, fs.preopenPaths⟩ : FSState).lookupPath p = some id ∧
        (⟨(((fs.heap.alloc (NodeData.charStdio 0)).1.alloc
          (NodeData.charStdio 1)).1.alloc (NodeData.charStdio 2)).1,
          fs.rootId, fs.preopenPaths⟩ : FSState).heap.get id =
          some (NodeData.dir es) := by
    intro p hp
    obtain ⟨id, es, hlk, hdir⟩ := hpre p hp
    obtain ⟨es', hdir', _⟩ := hDL id es hdir
    exact ⟨id, es', lookupGo_mono _ _ _ hDL _ _ hlk, hdir'⟩
  obtain ⟨a1, a2, a3, a4⟩ := assignPreopens_spec _ fs.preopenPaths 3 hpre2
  have hfiles : (initState fs chunks).files =
      [(0, ⟨(fs.heap.alloc (NodeData.charStdio 0)).2, 0, "/dev/fd/0", false,
        none, 0⟩),
       (1, ⟨((fs.heap.alloc (NodeData.charStdio 0)).1.alloc
        (NodeData.charStdio 1)).2, 0, "/dev/fd/1", false, none, 1⟩),
       (2, ⟨(((fs.heap.alloc (NodeData.charStdio 0)).1.alloc
        (NodeData.charStdio 1)).1.alloc (NodeData.charStdio 2)).2, 0,
        "/dev/fd/2", false, none, 2⟩)] ++
      (assignPreopens ⟨(((fs.heap.alloc (NodeData.charStdio 0)).1.alloc
        (NodeData.charStdio 1)).1.alloc (NodeData.charStdio 2)).1,
        fs.rootId, fs.preopenPaths⟩ fs.preopenPaths 3).1 := rfl
  have hnext : (initState fs chunks).nextFd =
      (assignPreopens ⟨(((fs.heap.alloc (NodeData.charStdio 0)).1.alloc
        (NodeData.charStdio 1)).1.alloc (NodeData.charStdio 2)).1,
        fs.rootId, fs.preopenPaths⟩ fs.preopenPaths 3).2 := rfl
  refine ⟨?_, ?_, ?_, ?_, ?_⟩
  · rw [hfiles, List.map_append, a2]
    rfl
  · rw [hfiles, List.drop_append_eq_append_drop]
    simp [a3]
  · rw [hfiles, List.drop_append_eq_append_drop]
    simp only [List.length_cons, List.length_nil]
    intro q hq
    have hq' : q ∈ (assignPreopens ⟨(((fs.heap.alloc
        (NodeData.charStdio 0)).1.alloc (NodeData.charStdio 1)).1.alloc
        (NodeData.charStdio 2)).1, fs.rootId, fs.preopenPaths⟩
        fs.preopenPaths 3).1 := by
      simpa using hq
    obtain ⟨x1, x2, _, _⟩ := a4 q hq'
    exact ⟨x1, x2⟩
  · rw [hnext, a1]
  · intro q hq
    rw [hnext, a1]
    rw [hfiles] at hq
    rcases List.mem_append.mp hq with hq' | hq'
    · have h0 : q.1 = 0 ∨ q.1 = 1 ∨ q.1 = 2 := by
        have hm := List.mem_map_of_mem Prod.fst hq'
        simpa using hm
      rcases h0 with h0 | h0 | h0 <;> omega
    · have : q.1 ∈ (assignPreopens ⟨(((fs.heap.alloc
          (NodeData.charStdio 0)).1.alloc (NodeData.charStdio 1)).1.alloc
          (NodeData.charStdio 2)).1, fs.rootId, fs.preopenPaths⟩
          fs.preopenPaths 3).1.map Prod.fst := List.mem_map_of_mem _ hq'
      rw [a2] at this
      have := List.mem_range'_1.mp this
      omega

/-- The descriptor invariant is preserved by every guest call. -/
theorem applyOp_inv (s : WasiState) (m : Mem) (op : MOp) (hinv : Inv s) :
    Inv (applyOp s m op).2.1 := by
  obtain ⟨hmono, hmem⟩ := applyOp_step s m op
  intro p hp
  rcases hmem p hp with ⟨e, he⟩ | ⟨heq, hlt⟩
  · exact lt_of_lt_of_le (hinv (p.1, e) he) hmono
  · rw [heq]
    exact hlt

/-- A descriptor number below `nextFd` that is not in the table (e.g. one
freed by `fd_close`) never reappears, across any sequence of guest calls;
the invariant is preserved as well. -/
theorem runOps_no_reuse (ops : List MOp) (s : WasiState) (m : Mem) (fd : Nat)
    (hinv : Inv s) (hlt : fd < s.nextFd) (hfree : ∀ e, (fd, e) ∉ s.files) :
    Inv (runOps s m ops).1 ∧ fd < (runOps s m ops).1.nextFd ∧
      ∀ e, (fd, e) ∉ (runOps s m ops).1.files := by
  induction ops generalizing s m with
  | nil => exact ⟨hinv, hlt, hfree⟩
  | cons op rest ih =>
      obtain ⟨hmono, hmem⟩ := applyOp_step s m op
      have hinv' : Inv (applyOp s m op).2.1 := applyOp_inv s m op hinv
      have hlt' : fd < (applyOp s m op).2.1.nextFd := lt_of_lt_of_le hlt hmono
      have hfree' : ∀ e, (fd, e) ∉ (applyOp s m op).2.1.files := by
        intro e he
        rcases hmem (fd, e) he with ⟨e', he'⟩ | ⟨heq, _⟩
        · exact hfree e' he'
        · simp only at heq
          omega
      cases h : (applyOp s m op).1 with
      | some errno =>
          have := ih (applyOp s m op).2.1 (applyOp s m op).2.2 hinv' hlt' hfree'
          simpa [runOps, h] using this
      | none =>
          simpa [runOps, h] using ⟨hinv', hlt', hfree'⟩

theorem not_mem_of_lookupA_none {α : Type} [DecidableEq α] {β : Type}
    (l : List (α × β)) (k : α) (h : lookupA l k = none) (v : β) :
    (k, v) ∉ l := by
  induction l with
  | nil => simp
  | cons p rest ih =>
      by_cases hp : p.1 = k
      · simp [lookupA, hp] at h
      · intro hm
        rcases List.mem_cons.mp hm with he | hm2
        · exact hp (congrArg Prod.fst he).symm
        · simp only [lookupA, hp, if_neg] at h
          exact ih h hm2

/-- C8: Descriptor numbering is a preserved invariant of the memory-FS
open-file table. For any preopen configuration accepted by `mkFS`:
(a) the initial table assigns descriptors `0,1,2` to stdio and then gives
the preopen directories consecutive descriptors starting at 3 in
registration order, with `nextFd` one past the last preopen;
(b) after a `path_open` call every table entry either was already present
or sits at the old `nextFd` and is strictly greater than every descriptor
assigned so far; (c) the numbering invariant (every assigned descriptor is
below `nextFd`) holds initially and is preserved by every operation, and a
descriptor below `nextFd` that is absent from the table — e.g. one freed
by `fd_close` — is never reassigned by any later operation sequence. -/
theorem c8_descriptor_numbering (ps : Option (List String)) (fs : FSState)
    (chunks : List (List Nat)) (ops : List MOp) (fd : Nat)
    (hfs : mkFS ps = some fs) :
    ((initState fs chunks).files.map Prod.fst =
        [0, 1, 2] ++ List.range' 3 fs.preopenPaths.length ∧
      ((initState fs chunks).files.drop 3).map (fun q => q.2.path) =
        fs.preopenPaths ∧
      (initState fs chunks).nextFd = 3 + fs.preopenPaths.length) ∧
    (∀ (s : WasiState) (m : Mem) (dirfd : Nat) (path : String)
        (oflags openedFd : Nat), Inv s →
      ∀ p ∈ (mfs_path_open s m dirfd path oflags openedFd).2.1.files,
        (∃ e, (p.1, e) ∈ s.files) ∨
          (p.1 = s.nextFd ∧ ∀ q ∈ s.files, q.1 < p.1)) ∧
    Inv (initState fs chunks) ∧
    (∀ (s : WasiState) (m : Mem) (op : MOp), Inv s →
      Inv (applyOp s m op).2.1) ∧
    (∀ (s : WasiState) (m : Mem), Inv s → fd < s.nextFd →
      (∀ e, (fd, e) ∉ s.files) →
      ∀ e, (fd, e) ∉ (runOps s m ops).1.files) := by
  obtain ⟨a1, a2, a3, a4, a5⟩ := initState_spec fs chunks (mkFS_good ps fs hfs)
  refine ⟨⟨a1, a2, a4⟩, ?_, a5,
    fun s m op hinv => applyOp_inv s m op hinv, ?_⟩
  · intro s m dirfd path oflags openedFd hinv p hp
    rcases (applyOp_step s m
        (MOp.opPathOpen dirfd path oflags openedFd)).2 p hp with
      h | ⟨heq, _⟩
    · exact Or.inl h
    · refine Or.inr ⟨heq, fun q hq => ?_⟩
      rw [heq]
      exact hinv q hq
  · intro s m hinv hlt hfree
    exact (runOps_no_reuse ops s m fd hinv hlt hfree).2.2

/-- Concrete instance: with preopen list `["/x"]` the initial table is
numbered `[0,1,2,3]` with `nextFd = 4`; after `path_open` allocates fd 4
and `fd_close` frees it, a further `path_open` does not reuse 4. -/
theorem c8_descriptor_numbering_witness :
    mkFS (some ["/x"]) =
      some ⟨⟨[(0, NodeData.dir [("dev", 1), ("x", 3)]),
        (1, NodeData.dir [("null", 2)]), (2, NodeData.charDevnull),
        (3, NodeData.dir [])], 4⟩, 0, ["/x"]⟩ ∧
    (initState ⟨⟨[(0, NodeData.dir [("dev", 1), ("x", 3)]),
        (1, NodeData.dir [("null", 2)]), (2, NodeData.charDevnull),
        (3, NodeData.dir [])], 4⟩, 0, ["/x"]⟩ []).files.map Prod.fst =
      [0, 1, 2] ++ List.range' 3 1 ∧
    (initState ⟨⟨[(0, NodeData.dir [("dev", 1), ("x", 3)]),
        (1, NodeData.dir [("null", 2)]), (2, NodeData.charDevnull),
        (3, NodeData.dir [])], 4⟩, 0, ["/x"]⟩ []).nextFd = 3 + 1 ∧
    ∀ e, (4, e) ∉
      (runOps
        (runOps (initState ⟨⟨[(0, NodeData.dir [("dev", 1), ("x", 3)]),
          (1, NodeData.dir [("null", 2)]), (2, NodeData.charDevnull),
          (3, NodeData.dir [])], 4⟩, 0, ["/x"]⟩ []) (fun _ => 0)
          [MOp.opPathOpen 3 "f" 1 100, MOp.opClose 4]).1
        (runOps (initState ⟨⟨[(0, NodeData.dir [("dev", 1), ("x", 3)]),
          (1, NodeData.dir [("null", 2)]), (2, NodeData.charDevnull),
          (3, NodeData.dir [])], 4⟩, 0, ["/x"]⟩ []) (fun _ => 0)
          [MOp.opPathOpen 3 "f" 1 100, MOp.opClose 4]).2
        [MOp.opPathOpen 3 "g" 1 100]).1.files := by
  have H := c8_descriptor_numbering (some ["/x"])
    ⟨⟨[(0, NodeData.dir [("dev", 1), ("x", 3)]),
      (1, NodeData.dir [("null", 2)]), (2, NodeData.charDevnull),
      (3, NodeData.dir [])], 4⟩, 0, ["/x"]⟩ []
    [MOp.opPathOpen 3 "g" 1 100] 4 rfl
  refine ⟨rfl, H.1.1, H.1.2.2, ?_⟩
  refine H.2.2.2.2 _ _ (by unfold Inv; decide) (by decide)
    (not_mem_of_lookupA_none _ 4 rfl)

end UWasi
